import Mathlib

/-!
Verification of the blotter save-file library: a shallow embedding of the
binary codec (v5/v6), the sandbox connectivity engine, the sandbox/file
serializer, and the v5-to-v6 migration, together with proofs settling the
specification claims.

Machine integers are embedded as `Nat` bit patterns (`u8` < 2^8, `u16` < 2^16,
`u32`/`i32`/`f32` < 2^32); signedness of `i32` is interpreted at its use sites
exactly where the source interprets it.  Fallible code (Rust `panic!`,
`unwrap`, `assert!`, `unreachable!`) is embedded in `Option`, with `none` for
a panic.  Hash sets and hash maps are embedded as duplicate-free lists in a
fixed iteration order (a deterministic refinement of the hash iteration
order, which no claim depends on).
-/

namespace Blotter

/-! ## Stable-handle object store (src/misc/object_store.rs)

`ObjectStore<T>` keeps a free list inline with the entries: a vacant entry
stores the index of the next vacant entry, and `first_vacant` is `usize::MAX`
when the free list is empty. -/

inductive Entry (T : Type) where
  | vacant (next_vacant : Nat)
  | occupied (item : T)
deriving DecidableEq, Repr

structure ObjectStore (T : Type) where
  first_vacant : Nat
  entries : List (Entry T)
deriving DecidableEq, Repr

/-- The value of `usize::MAX` on a 64-bit host, used by the source as the
"empty free list" sentinel of `ObjectStore::new`. -/
def usizeMax : Nat := 2 ^ 64 - 1

def ObjectStore.new (T : Type) : ObjectStore T :=
  { first_vacant := usizeMax, entries := [] }

/-- `ObjectStore::insert`.  If the head of the free list is a vacant entry it
is reused (the address is re-issued); otherwise the item is appended.  The
source hits `unreachable!("occupied entry in free list")` when the free-list
head is occupied; that panic is `none` here. -/
def ObjectStore.insert (s : ObjectStore T) (item : T) : Option (Nat × ObjectStore T) :=
  match s.entries[s.first_vacant]? with
  | some (Entry.vacant next_vacant) =>
      some (s.first_vacant,
        { first_vacant := next_vacant,
          entries := s.entries.set s.first_vacant (Entry.occupied item) })
  | some (Entry.occupied _) => none
  | none =>
      some (s.entries.length,
        { first_vacant := s.first_vacant,
          entries := s.entries ++ [Entry.occupied item] })

/-- `ObjectStore::get`. -/
def ObjectStore.get (s : ObjectStore T) (address : Nat) : Option T :=
  match s.entries[address]? with
  | some (Entry.occupied x) => some x
  | _ => none

/-- `ObjectStore::remove`.  Returns `none` (leaving the store unchanged, as
the source does) when the entry is vacant or out of range; on success the slot
becomes the new head of the free list. -/
def ObjectStore.remove (s : ObjectStore T) (address : Nat) : Option (T × ObjectStore T) :=
  match s.entries[address]? with
  | some (Entry.occupied x) =>
      some (x,
        { first_vacant := address,
          entries := s.entries.set address (Entry.vacant s.first_vacant) })
  | _ => none

/-- `store.get_mut(address)` followed by an in-place update of the item;
`none` when the entry is not occupied (the call sites using `.unwrap()`
panic there). -/
def ObjectStore.modify (s : ObjectStore T) (address : Nat) (f : T → T) : Option (ObjectStore T) :=
  match s.entries[address]? with
  | some (Entry.occupied x) =>
      some { first_vacant := s.first_vacant,
             entries := s.entries.set address (Entry.occupied (f x)) }
  | _ => none

/-- `ObjectStore::iter`: the live items in index order, with their addresses. -/
def ObjectStore.iter (s : ObjectStore T) : List (Nat × T) :=
  s.entries.enum.filterMap fun (i, e) =>
    match e with
    | Entry.occupied x => some (i, x)
    | Entry.vacant _ => none

theorem lt_length_of_getElem {α : Type _} {l : List α} {i : Nat} {e : α}
    (h : l[i]? = some e) : i < l.length := by
  by_contra hge
  rw [List.getElem?_eq_none_iff.mpr (Nat.le_of_not_lt hge)] at h
  exact absurd h (by simp)

theorem ObjectStore.remove_eq_some {T : Type} {s s' : ObjectStore T} {a : Nat} {x : T}
    (h : s.remove a = some (x, s')) :
    s.entries[a]? = some (Entry.occupied x) ∧
      s' = { first_vacant := a, entries := s.entries.set a (Entry.vacant s.first_vacant) } := by
  unfold ObjectStore.remove at h
  split at h
  next x' heq =>
    simp only [Option.some.injEq, Prod.mk.injEq] at h
    exact ⟨h.1 ▸ heq, h.2.symm⟩
  next => exact absurd h (by simp)

theorem ObjectStore.insert_eq_some {T : Type} {s s' : ObjectStore T} {a : Nat} {y : T}
    (h : s.insert y = some (a, s')) :
    (∃ nv, a = s.first_vacant ∧ s.entries[a]? = some (Entry.vacant nv) ∧
        s' = { first_vacant := nv, entries := s.entries.set a (Entry.occupied y) }) ∨
      (a = s.entries.length ∧ s.entries[s.first_vacant]? = none ∧
        s' = { first_vacant := s.first_vacant, entries := s.entries ++ [Entry.occupied y] }) := by
  unfold ObjectStore.insert at h
  split at h
  next nv heq =>
    simp only [Option.some.injEq, Prod.mk.injEq] at h
    obtain ⟨rfl, rfl⟩ := h
    exact Or.inl ⟨nv, rfl, heq, rfl⟩
  next => exact absurd h (by simp)
  next heq =>
    simp only [Option.some.injEq, Prod.mk.injEq] at h
    obtain ⟨rfl, rfl⟩ := h
    exact Or.inr ⟨rfl, heq, rfl⟩

/-- An address returned by `insert` refers to the inserted item. -/
theorem ObjectStore.insert_get_self {T : Type} {s s' : ObjectStore T} {a : Nat} {y : T}
    (h : s.insert y = some (a, s')) : s'.get a = some y := by
  rcases s.insert_eq_some h with ⟨nv, rfl, heq, rfl⟩ | ⟨rfl, _, rfl⟩
  · have hlt : s.first_vacant < s.entries.length := lt_length_of_getElem heq
    simp [ObjectStore.get, List.getElem?_set_eq_of_lt _ hlt]
  · simp [ObjectStore.get, List.getElem?_concat_length]

/-- `insert` leaves items at other live addresses untouched. -/
theorem ObjectStore.insert_get_other {T : Type} {s s' : ObjectStore T} {a b : Nat} {x y : T}
    (h : s.insert y = some (a, s')) (hb : s.get b = some x) : s'.get b = some x := by
  unfold ObjectStore.get at hb ⊢
  have hocc : s.entries[b]? = some (Entry.occupied x) := by
    revert hb; split <;> simp_all
  rcases s.insert_eq_some h with ⟨nv, rfl, heq, rfl⟩ | ⟨rfl, _, rfl⟩
  · have hne : s.first_vacant ≠ b := fun he => by rw [he, hocc] at heq; exact absurd heq (by simp)
    simp [List.getElem?_set_ne hne, hocc]
  · have hlt : b < s.entries.length := lt_length_of_getElem hocc
    simp [List.getElem?_append_left hlt, hocc]

/-- `remove` leaves items at other addresses untouched. -/
theorem ObjectStore.remove_get_other {T : Type} {s s' : ObjectStore T} {a b : Nat} {x : T}
    (h : s.remove a = some (x, s')) (hne : b ≠ a) : s'.get b = s.get b := by
  obtain ⟨_, rfl⟩ := s.remove_eq_some h
  simp [ObjectStore.get, List.getElem?_set_ne (Ne.symm hne)]

/-- After `remove` vacates an address, the very next `insert` re-issues it. -/
theorem ObjectStore.remove_then_insert {T : Type} {s s' : ObjectStore T} {a : Nat} {x y : T}
    (h : s.remove a = some (x, s')) : (s'.insert y).map Prod.fst = some a := by
  obtain ⟨hocc, rfl⟩ := s.remove_eq_some h
  have hlt : a < s.entries.length := lt_length_of_getElem hocc
  simp [ObjectStore.insert, List.getElem?_set_eq_of_lt _ hlt]

/-- Claim C8, counterexample: handles *are* re-issued.  Insert an item (handle
0), remove it, insert again: the second insert reuses the vacated slot and
returns handle 0 — equal to the previously removed handle. -/
theorem c8_removed_handle_reissued :
    (ObjectStore.new Nat).insert 10 =
        some (0, { first_vacant := usizeMax, entries := [Entry.occupied 10] }) ∧
      ObjectStore.remove { first_vacant := usizeMax, entries := [Entry.occupied 10] } 0 =
        some (10, { first_vacant := 0, entries := [Entry.vacant usizeMax] }) ∧
      ObjectStore.insert { first_vacant := 0, entries := [Entry.vacant usizeMax] } 20 =
        some (0, { first_vacant := usizeMax, entries := [Entry.occupied 20] }) :=
  ⟨rfl, rfl, rfl⟩

/-- Claim C8, amended: a handle returned by `insert` is bound to the inserted
item and stays valid and bound to it while the item is live (`insert` and
`remove` at other addresses do not disturb it) — but removed handles are
re-issued: the free list makes the next `insert` after a successful
`remove a` return the address `a` again. -/
theorem c8_store_contract : ∀ (T : Type),
    (∀ (s s' : ObjectStore T) (a : Nat) (x y : T),
        s.remove a = some (x, s') → (s'.insert y).map Prod.fst = some a) ∧
    (∀ (s s' : ObjectStore T) (a : Nat) (y : T),
        s.insert y = some (a, s') → s'.get a = some y) ∧
    (∀ (s s' : ObjectStore T) (a b : Nat) (x y : T),
        s.insert y = some (a, s') → s.get b = some x → s'.get b = some x) ∧
    (∀ (s s' : ObjectStore T) (a b : Nat) (x : T),
        s.remove a = some (x, s') → b ≠ a → s'.get b = s.get b) :=
  fun _ =>
    ⟨fun _ _ _ _ _ h => ObjectStore.remove_then_insert h,
     fun _ _ _ _ h => ObjectStore.insert_get_self h,
     fun _ _ _ _ _ _ h hb => ObjectStore.insert_get_other h hb,
     fun _ _ _ _ _ h hne => ObjectStore.remove_get_other h hne⟩

/-- Concrete instance of the amended store contract: reuse after a removal,
binding of a fresh handle, and stability of handle 0 across an unrelated
insert and removal. -/
theorem c8_store_contract_witness :
    ((ObjectStore.insert { first_vacant := 0, entries := [Entry.vacant usizeMax] }
        (20 : Nat)).map Prod.fst = some 0) ∧
      (ObjectStore.get { first_vacant := usizeMax, entries := [Entry.occupied 20] }
        0 = some (20 : Nat)) ∧
      (ObjectStore.get { first_vacant := usizeMax, entries := [Entry.occupied 7,
        Entry.occupied 20] } 0 = some (7 : Nat)) ∧
      (ObjectStore.get { first_vacant := 1, entries := [Entry.occupied 7,
          Entry.vacant usizeMax] } 0 =
        ObjectStore.get { first_vacant := usizeMax, entries := [Entry.occupied 7,
          Entry.occupied 20] } 0) :=
  ⟨(c8_store_contract Nat).1 { first_vacant := usizeMax, entries := [Entry.occupied 10] }
     _ 0 10 20 rfl,
   (c8_store_contract Nat).2.1 { first_vacant := 0, entries := [Entry.vacant usizeMax] }
     _ 0 20 rfl,
   (c8_store_contract Nat).2.2.1 { first_vacant := usizeMax, entries := [Entry.occupied 7] }
     _ 1 0 7 20 rfl rfl,
   (c8_store_contract Nat).2.2.2 { first_vacant := usizeMax, entries := [Entry.occupied 7,
     Entry.occupied 20] } _ 1 0 20 rfl (by decide)⟩

/-- `get_mut` followed by a fallible in-place update: `none` when the entry is
not occupied or the update itself fails. -/
def ObjectStore.tryModify (s : ObjectStore T) (address : Nat) (f : T → Option T) :
    Option (ObjectStore T) :=
  match s.entries[address]? with
  | some (Entry.occupied x) =>
      (f x).map fun y =>
        { first_vacant := s.first_vacant, entries := s.entries.set address (Entry.occupied y) }
  | _ => none

/-- The free-list head is sane: if it points into the entries at all, it
points at a vacant entry.  Every store built through the API keeps this;
`insert` needs it to avoid the `unreachable!`. -/
def ObjectStore.freeOk (s : ObjectStore T) : Prop :=
  ∀ e, s.entries[s.first_vacant]? = some e → ∃ nv, e = Entry.vacant nv

theorem ObjectStore.insert_isSome {T : Type} {s : ObjectStore T} (hfree : s.freeOk) (y : T) :
    ∃ a s', s.insert y = some (a, s') := by
  unfold ObjectStore.insert
  cases hv : s.entries[s.first_vacant]? with
  | none => exact ⟨s.entries.length, _, rfl⟩
  | some e =>
    obtain ⟨nv, rfl⟩ := hfree e hv
    exact ⟨s.first_vacant, _, rfl⟩

theorem ObjectStore.modify_spec {T : Type} {s : ObjectStore T} {a : Nat} {x : T}
    (f : T → T) (h : s.get a = some x) :
    ∃ s', s.modify a f = some s' ∧ s'.get a = some (f x) ∧
      ∀ b, b ≠ a → s'.get b = s.get b := by
  have hocc : s.entries[a]? = some (Entry.occupied x) := by
    unfold ObjectStore.get at h
    revert h
    split <;> simp_all
  have hlt : a < s.entries.length := lt_length_of_getElem hocc
  refine ⟨_, by unfold ObjectStore.modify; rw [hocc], ?_, ?_⟩
  · simp [ObjectStore.get, List.getElem?_set_eq_of_lt _ hlt]
  · intro b hb
    simp [ObjectStore.get, List.getElem?_set_ne (Ne.symm hb)]

/-! ## Hash-set / hash-map embedding

`HashSet` and `HashMap` are embedded as duplicate-free lists; the list order
stands for the (arbitrary) hash iteration order. -/

/-- `HashSet::insert` (no effect when the element is present). -/
def hsInsert [DecidableEq α] (l : List α) (x : α) : List α :=
  if x ∈ l then l else l ++ [x]

/-- `HashSet::remove`. -/
def hsRemove [DecidableEq α] (l : List α) (x : α) : List α := l.erase x

/-- `Extend::extend` on a `HashSet`. -/
def hsExtend [DecidableEq α] (l : List α) (xs : List α) : List α := xs.foldl hsInsert l

/-! ## Sandbox data model (src/sandbox/mod.rs)

`ComponentId`, `WireId` and `NetId` are raw `Nat` indices (the source wraps
`ObjectStore` addresses and `DenseStore` indices).  `f32` payloads (wire and
component rotations) are carried as opaque bit patterns; the engine never
computes with them. -/

inductive PegType where
  | input
  | output
deriving DecidableEq, Repr

structure PegAddress where
  component : Nat
  peg_type : PegType
  peg_index : Nat
deriving DecidableEq, Repr

structure PegInfo where
  net_id : Nat
  wires : List Nat
deriving DecidableEq, Repr

structure WireInfo where
  a : PegAddress
  b : PegAddress
  net_id : Nat
  rotation : Nat
deriving DecidableEq, Repr

structure NetInfo where
  wires : List Nat
  pegs : List PegAddress
deriving DecidableEq, Repr

/-- `NetInfo::size`. -/
def NetInfo.size (n : NetInfo) : Nat := n.wires.length + n.pegs.length

structure ComponentInfo where
  type_id : Nat
  parent : Option Nat
  position : Nat × Nat × Nat
  rotation : Nat × Nat × Nat × Nat
  children : List Nat
  inputs : List PegInfo
  outputs : List PegInfo
  custom_data : Option (List Nat)
deriving DecidableEq, Repr

structure ModInfoS where
  mod_id : String
  mod_version : Nat × Nat × Nat × Nat
deriving DecidableEq, Repr

structure Sandbox where
  root_components : List Nat
  components : ObjectStore ComponentInfo
  wires : ObjectStore WireInfo
  nets : List NetInfo
  net_states : List Bool
  next_type : Nat
  component_types : List (String × Nat)
  mods : List ModInfoS
deriving DecidableEq, Repr

/-- `ComponentInfo::get_peg`. -/
def ComponentInfo.getPeg (c : ComponentInfo) (addr : PegAddress) : Option PegInfo :=
  match addr.peg_type with
  | PegType.input => c.inputs[addr.peg_index]?
  | PegType.output => c.outputs[addr.peg_index]?

/-- In-place update through `ComponentInfo::get_peg_mut` (the peg is known to
exist at the call sites that use this). -/
def ComponentInfo.setPeg (c : ComponentInfo) (addr : PegAddress) (p : PegInfo) : ComponentInfo :=
  match addr.peg_type with
  | PegType.input => { c with inputs := c.inputs.set addr.peg_index p }
  | PegType.output => { c with outputs := c.outputs.set addr.peg_index p }

/-- `Sandbox::get_peg`. -/
def Sandbox.getPeg (s : Sandbox) (addr : PegAddress) : Option PegInfo :=
  (s.components.get addr.component).bind fun c => c.getPeg addr

/-- `Sandbox::get_peg_mut` followed by an update of the peg; `none` when the
address does not resolve. -/
def Sandbox.modifyPeg (s : Sandbox) (addr : PegAddress) (f : PegInfo → PegInfo) :
    Option Sandbox :=
  (s.components.tryModify addr.component fun c =>
      (c.getPeg addr).map fun p => c.setPeg addr (f p)).map
    fun cs => { s with components := cs }

/-- `self.nets.get_mut(i).unwrap()` followed by an in-place update. -/
def Sandbox.netsModify (s : Sandbox) (i : Nat) (f : NetInfo → NetInfo) : Option Sandbox :=
  match s.nets[i]? with
  | some n => some { s with nets := s.nets.set i (f n) }
  | none => none

/-- `Vec::swap_remove` / `DenseStore::remove`: the removed item is returned and
the last item moves into its slot (the rename record is `src = length - 1`,
`dest = i`, implicit here). -/
def swapRemove (l : List α) (i : Nat) : Option (α × List α) :=
  match l[i]? with
  | none => none
  | some x => some (x, (l.set i (l.getLast?.getD x)).dropLast)

/-- `Sandbox::make_net`.  The leading `assert_eq!(nets.len(), net_states.len())`
is the `none` case. -/
def Sandbox.makeNet (s : Sandbox) : Option (Nat × Sandbox) :=
  if s.nets.length = s.net_states.length then
    some (s.nets.length,
      { s with net_states := s.net_states ++ [false],
               nets := s.nets ++ [{ wires := [], pegs := [] }] })
  else none

/-- `Sandbox::remove_net`.  A missing net returns `(none, s)` unchanged (the
source's `else` branch); after a successful dense-store removal the source
unwraps `nets.get(rename.dest)` to relabel the moved net's cross-references —
when the removed net was the last dense slot that lookup fails and the source
panics (`none` here). -/
def Sandbox.removeNet (s : Sandbox) (net_id : Nat) : Option (Option NetInfo × Sandbox) :=
  match swapRemove s.nets net_id with
  | none => some (none, s)
  | some (net, nets') => do
      let s := { s with nets := nets' }
      let renamed ← s.nets[net_id]?
      let s ← renamed.wires.foldlM (fun (t : Sandbox) w =>
          (t.wires.modify w fun wi => { wi with net_id := net_id }).map
            fun ws => { t with wires := ws }) s
      let s ← renamed.pegs.foldlM (fun (t : Sandbox) p =>
          t.modifyPeg p fun pi => { pi with net_id := net_id }) s
      let (_, states') ← swapRemove s.net_states net_id
      let s := { s with net_states := states' }
      if s.nets.length = s.net_states.length then some (some net, s) else none

/-- `Sandbox::merge_nets`: merge the smaller net into the larger one. -/
def Sandbox.mergeNets (s : Sandbox) (id_a id_b : Nat) : Option (Nat × Sandbox) :=
  if id_a = id_b then some (id_a, s)
  else do
    let a ← s.nets[id_a]?
    let b ← s.nets[id_b]?
    let (id_dest, id_src) := if b.size ≤ a.size then (id_a, id_b) else (id_b, id_a)
    let (srcOpt, s) ← s.removeNet id_src
    let src ← srcOpt
    let s ← src.wires.foldlM (fun (t : Sandbox) w =>
        (t.wires.modify w fun wi => { wi with net_id := id_dest }).map
          fun ws => { t with wires := ws }) s
    let s ← src.pegs.foldlM (fun (t : Sandbox) p =>
        t.modifyPeg p fun pi => { pi with net_id := id_dest }) s
    let s ← s.netsModify id_dest fun d =>
        { d with pegs := hsExtend d.pegs src.pegs, wires := hsExtend d.wires src.wires }
    some (id_dest, s)

/-- `Sandbox::get_component_type`: look the text id up, allocating the next
numeric id when absent. -/
def Sandbox.getComponentType (s : Sandbox) (id : String) : Nat × Sandbox :=
  match s.component_types.lookup id with
  | some x => (x, s)
  | none =>
      (s.next_type,
        { s with next_type := s.next_type + 1,
                 component_types := s.component_types ++ [(id, s.next_type)] })

structure ComponentBuilder where
  id : String
  parent : Option Nat
  position : Nat × Nat × Nat
  rotation : Nat × Nat × Nat × Nat
  num_inputs : Nat
  num_outputs : Nat
  custom_data : Option (List Nat)
deriving DecidableEq, Repr

/-- `ComponentBuilder::new` (the default rotation is `[0, 0, 0, 1.0]`;
`0x3F800000` is the bit pattern of `1.0f32`). -/
def ComponentBuilder.new (id : String) : ComponentBuilder :=
  { id, parent := none, position := (0, 0, 0), rotation := (0, 0, 0, 0x3F800000),
    num_inputs := 0, num_outputs := 0, custom_data := none }

/-- The `repeat_with(|| PegInfo { net_id: self.make_net(), wires: ... })`
loops of `add_component`: allocate one fresh singleton net per peg. -/
def Sandbox.allocPegs (s : Sandbox) : Nat → Option (List PegInfo × Sandbox)
  | 0 => some ([], s)
  | n + 1 => do
      let (nid, s) ← s.makeNet
      let (rest, s) ← s.allocPegs n
      some ({ net_id := nid, wires := [] } :: rest, s)

/-- `Sandbox::insert_component`: store the info, register the peg-net
cross-references (inputs first), then the parent-child cross-reference.  The
source unwraps the parent lookup ("it is reasonable to assume the parent
exists here"); a dangling parent is a panic (`none`). -/
def Sandbox.insertComponent (s : Sandbox) (info : ComponentInfo) : Option (Nat × Sandbox) := do
  let (idRaw, cs) ← s.components.insert info
  let s := { s with components := cs }
  let info ← s.components.get idRaw
  let s ← info.inputs.enum.foldlM (fun (t : Sandbox) (ip : Nat × PegInfo) =>
      t.netsModify ip.2.net_id fun n =>
        { n with pegs := hsInsert n.pegs (PegAddress.mk idRaw PegType.input ip.1) }) s
  let s ← info.outputs.enum.foldlM (fun (t : Sandbox) (ip : Nat × PegInfo) =>
      t.netsModify ip.2.net_id fun n =>
        { n with pegs := hsInsert n.pegs (PegAddress.mk idRaw PegType.output ip.1) }) s
  match info.parent with
  | some parent => do
      let cs ← s.components.modify parent fun c =>
        { c with children := hsInsert c.children idRaw }
      some (idRaw, { s with components := cs })
  | none => some (idRaw, { s with root_components := hsInsert s.root_components idRaw })

/-- `Sandbox::add_component`. -/
def Sandbox.addComponent (s : Sandbox) (builder : ComponentBuilder) :
    Option (Nat × Sandbox) := do
  let (type_id, s) := s.getComponentType builder.id
  let (inputs, s) ← s.allocPegs builder.num_inputs
  let (outputs, s) ← s.allocPegs builder.num_outputs
  s.insertComponent
    { type_id, parent := builder.parent, position := builder.position,
      rotation := builder.rotation, children := [], inputs, outputs,
      custom_data := builder.custom_data }

inductive AddWireError where
  | invalidPegAddress
deriving DecidableEq, Repr

/-- The wire-creation tail of `Sandbox::insert_wire` (everything after the
wire's net id has been determined): store the `WireInfo`, then register the
wire in both pegs' wire sets and in the net's wire set. -/
def Sandbox.wireFinish (s : Sandbox) (addr_a addr_b : PegAddress) (rotation : Nat)
    (net_id : Nat) : Option (Except AddWireError Nat × Sandbox) := do
  let (wire_id, ws) ← s.wires.insert
    { a := addr_a, b := addr_b, net_id := net_id, rotation := rotation }
  let s := { s with wires := ws }
  let s ← s.modifyPeg addr_a fun p => { p with wires := hsInsert p.wires wire_id }
  let s ← s.modifyPeg addr_b fun p => { p with wires := hsInsert p.wires wire_id }
  let s ← s.netsModify net_id fun n => { n with wires := hsInsert n.wires wire_id }
  some (Except.ok wire_id, s)

/-- `Sandbox::insert_wire`: validate the endpoints, return the existing wire
when one already connects the two pegs, otherwise pick the wire's net (the
output peg's net, or the merge of the two input nets; with a savefile-declared
net id, assert it matches the non-output endpoints) and finish via
`wireFinish`. -/
def Sandbox.insertWire (s : Sandbox) (addr_a addr_b : PegAddress) (rotation : Nat)
    (declared : Option Nat) : Option (Except AddWireError Nat × Sandbox) :=
  if addr_a.peg_type = PegType.output ∧ addr_b.peg_type = PegType.output then
    some (Except.error AddWireError.invalidPegAddress, s)
  else
    match s.getPeg addr_a with
    | none => some (Except.error AddWireError.invalidPegAddress, s)
    | some peg_a =>
      match s.getPeg addr_b with
      | none => some (Except.error AddWireError.invalidPegAddress, s)
      | some peg_b =>
        match (peg_a.wires.filter fun w => w ∈ peg_b.wires).head? with
        | some wire_id => some (Except.ok wire_id, s)
        | none =>
          match declared with
          | some id =>
              if (addr_a.peg_type = PegType.output ∨ id = peg_b.net_id) ∧
                  (addr_b.peg_type = PegType.output ∨ id = peg_a.net_id) then
                s.wireFinish addr_a addr_b rotation id
              else none
          | none =>
              if addr_a.peg_type = PegType.output then
                s.wireFinish addr_a addr_b rotation peg_a.net_id
              else if addr_b.peg_type = PegType.output then
                s.wireFinish addr_a addr_b rotation peg_b.net_id
              else
                (s.mergeNets peg_a.net_id peg_b.net_id).bind fun ms =>
                  ms.2.wireFinish addr_a addr_b rotation ms.1

/-- `Sandbox::add_wire`. -/
def Sandbox.addWire (s : Sandbox) (addr_a addr_b : PegAddress) (rotation : Nat) :
    Option (Except AddWireError Nat × Sandbox) :=
  s.insertWire addr_a addr_b rotation none

/-- Total number of pegs over the live components; an upper bound for the
`check_split` traversal (every iteration pops a previously unvisited live
peg). -/
def Sandbox.pegCount (s : Sandbox) : Nat :=
  (s.components.iter.map fun ic => ic.2.inputs.length + ic.2.outputs.length).sum

/-- The `while let Some(peg_addr) = frontier.pop()` traversal of
`Sandbox::check_split`.  The state is read-only during the walk; visited pegs
and wires accumulate; `unreachable!("invalid xref ...")` and the
`get_peg`/`wires.get` unwraps are `none`. -/
def Sandbox.splitLoop (s : Sandbox) :
    Nat → List PegAddress → List PegAddress → List Nat → Option (List PegAddress × List Nat)
  | _, [], visited_pegs, visited_wires => some (visited_pegs, visited_wires)
  | 0, _ :: _, _, _ => none
  | fuel + 1, peg_addr :: frontier, visited_pegs, visited_wires => do
      let peg ← s.getPeg peg_addr
      let st ← peg.wires.foldlM
          (fun (st : List PegAddress × List PegAddress × List Nat) wire_id => do
            let wire ← s.wires.get wire_id
            let neighbor ←
              if peg_addr = wire.a then some wire.b
              else if peg_addr = wire.b then some wire.a
              else none
            let vw := hsInsert st.2.2 wire_id
            if neighbor ∈ st.2.1 then some (st.1, st.2.1, vw)
            else some (neighbor :: st.1, st.2.1 ++ [neighbor], vw))
          (frontier, visited_pegs, visited_wires)
      s.splitLoop fuel st.1 st.2.1 st.2.2

/-- `Sandbox::check_split`: decide whether removing the wire `(addr_a, addr_b)`
disconnected their net and, if so, move everything reached from `addr_a` into a
fresh net.  (The source updates only the `net_id` fields of the moved pegs and
wires.) -/
def Sandbox.checkSplit (s : Sandbox) (addr_a addr_b : PegAddress) : Option Sandbox :=
  match s.getPeg addr_a, s.getPeg addr_b with
  | none, _ => some s
  | some _, none => some s
  | some peg_a, some peg_b =>
    if peg_a.net_id ≠ peg_b.net_id then
      if addr_a.peg_type ≠ addr_b.peg_type then some s
      else none
    else do
      let (visited_pegs, visited_wires) ← s.splitLoop (s.pegCount + 2) [addr_a] [addr_a] []
      if addr_b ∈ visited_pegs then some s
      else do
        let (net_id, s) ← s.makeNet
        let s ← visited_pegs.foldlM (fun (t : Sandbox) p =>
            t.modifyPeg p fun pi => { pi with net_id := net_id }) s
        let s ← visited_wires.foldlM (fun (t : Sandbox) w =>
            (t.wires.modify w fun wi => { wi with net_id := net_id }).map
              fun ws => { t with wires := ws }) s
        some s

/-- `Sandbox::remove_wire`: a missing wire is a no-op; otherwise drop the
wire-net and wire-peg cross-references (tolerating missing pegs) and run the
split check. -/
def Sandbox.removeWire (s : Sandbox) (id : Nat) : Option Sandbox :=
  match s.wires.remove id with
  | none => some s
  | some (wire, ws) => do
      let s := { s with wires := ws }
      let s ← s.netsModify wire.net_id fun n => { n with wires := hsRemove n.wires id }
      let s := match s.modifyPeg wire.a (fun p => { p with wires := hsRemove p.wires id }) with
               | some t => t
               | none => s
      let s := match s.modifyPeg wire.b (fun p => { p with wires := hsRemove p.wires id }) with
               | some t => t
               | none => s
      s.checkSplit wire.a wire.b

/-- `Sandbox::remove_component`, with explicit fuel for the recursion into
children.  A missing component is a no-op; otherwise every incident wire is
removed, each peg is dropped from its net (removing nets that become empty),
the parent's child set is updated when the parent still exists, and the
children are removed recursively. -/
def Sandbox.removeComponentFuel : Nat → Sandbox → Nat → Option Sandbox
  | 0, _, _ => none
  | fuel + 1, s, id =>
    match s.components.remove id with
    | none => some s
    | some (component, cs) => do
        let s := { s with components := cs }
        let pegList :=
          (component.inputs.enum.map fun ip =>
            (PegAddress.mk id PegType.input ip.1, ip.2)) ++
          (component.outputs.enum.map fun ip =>
            (PegAddress.mk id PegType.output ip.1, ip.2))
        let s ← pegList.foldlM (fun (t : Sandbox) pp => do
            let t ← pp.2.wires.foldlM (fun (u : Sandbox) w => u.removeWire w) t
            match t.nets[pp.2.net_id]? with
            | none => none
            | some n0 =>
                let n1 : NetInfo := { n0 with pegs := hsRemove n0.pegs pp.1 }
                let t := { t with nets := t.nets.set pp.2.net_id n1 }
                if n1.size = 0 then (t.removeNet pp.2.net_id).map Prod.snd
                else some t) s
        let s := match component.parent with
          | some parent =>
              match s.components.modify parent
                  (fun c => { c with children := hsRemove c.children id }) with
              | some cs' => { s with components := cs' }
              | none => s
          | none => s
        component.children.foldlM
          (fun (t : Sandbox) child => Sandbox.removeComponentFuel fuel t child) s

/-- `Sandbox::remove_component` (fuel: one more than the entry count bounds
the depth of the child recursion, since every nested call removes a live
component first). -/
def Sandbox.removeComponent (s : Sandbox) (id : Nat) : Option Sandbox :=
  Sandbox.removeComponentFuel (s.components.entries.length + 1) s id

/-- `DEFAULT_COMPONENT_TYPES`, as the name-to-numeric-id map built by
`default_component_types_map`. -/
def defaultComponentTypes : List (String × Nat) :=
  [("MHG.Inverter", 0), ("MHG.XorGate", 1), ("MHG.AndGate", 2), ("MHG.Delayer", 3),
   ("MHG.DLatch", 4), ("MHG.Randomizer", 5), ("MHG.Relay", 6),
   ("MHG.Buffer_WithOutput", 7), ("MHG.Buffer", 8), ("MHG.CircuitBoard", 9),
   ("MHG.Mount", 10), ("MHG.Peg", 11), ("MHG.ThroughPeg", 12), ("MHG.Socket", 13),
   ("MHG.ThroughSocket", 14), ("MHG.ChubbySocket", 15), ("MHG.ChubbyThroughSocket", 16),
   ("MHG.Label", 17), ("MHG.PanelLabel", 18), ("MHG.Chair", 19), ("MHG.Flag", 20),
   ("MHG.StandingDisplay", 21), ("MHG.PanelDisplay", 22), ("MHG.Singer", 23),
   ("MHG.Drum", 24), ("MHG.Switch", 25), ("MHG.PanelSwitch", 26), ("MHG.Button", 27),
   ("MHG.PanelButton", 28), ("MHG.Key", 29), ("MHG.PanelKey", 30)]

/-- `Sandbox::with_meta_info` (note: `next_type` starts at the *maximum* used
numeric id, exactly as the source computes it). -/
def Sandbox.withMetaInfo (component_types : List (String × Nat)) (mods : List ModInfoS) :
    Sandbox :=
  { root_components := [], components := ObjectStore.new ComponentInfo,
    wires := ObjectStore.new WireInfo, nets := [], net_states := [],
    next_type := (component_types.map Prod.snd).foldl max 0,
    component_types := component_types, mods := mods }

/-- `Sandbox::new`. -/
def Sandbox.new : Sandbox := Sandbox.withMetaInfo defaultComponentTypes []

/-! ## Helper lemmas about the embedded stores and peg accessors -/

theorem ObjectStore.insert_get_none {T : Type} {s s' : ObjectStore T} {a : Nat} {y : T}
    (h : s.insert y = some (a, s')) : s.get a = none := by
  rcases s.insert_eq_some h with ⟨nv, rfl, heq, _⟩ | ⟨rfl, _, _⟩
  · simp [ObjectStore.get, heq]
  · simp [ObjectStore.get]

theorem ComponentInfo.getPeg_setPeg_self {c : ComponentInfo} {addr : PegAddress}
    {p q : PegInfo} (h : c.getPeg addr = some p) : (c.setPeg addr q).getPeg addr = some q := by
  obtain ⟨comp, ptype, pidx⟩ := addr
  cases ptype <;>
    simp only [ComponentInfo.getPeg, ComponentInfo.setPeg] at h ⊢ <;>
    exact List.getElem?_set_eq_of_lt q (lt_length_of_getElem h)

theorem ComponentInfo.getPeg_setPeg_other {c : ComponentInfo} {addr addr' : PegAddress}
    {q : PegInfo} (hne : addr'.peg_type ≠ addr.peg_type ∨ addr'.peg_index ≠ addr.peg_index) :
    (c.setPeg addr q).getPeg addr' = c.getPeg addr' := by
  obtain ⟨comp, ptype, pidx⟩ := addr
  obtain ⟨comp', ptype', pidx'⟩ := addr'
  simp only at hne
  cases ptype <;> cases ptype' <;>
    simp only [ComponentInfo.getPeg, ComponentInfo.setPeg] <;>
    first
      | rfl
      | exact List.getElem?_set_ne (by simp at hne; omega)

theorem Sandbox.modifyPeg_spec {s s' : Sandbox} {addr : PegAddress} {f : PegInfo → PegInfo}
    (h : s.modifyPeg addr f = some s') :
    (∃ p, s.getPeg addr = some p ∧ s'.getPeg addr = some (f p)) ∧
      (∀ addr', addr' ≠ addr → s'.getPeg addr' = s.getPeg addr') ∧
      s'.wires = s.wires ∧ s'.nets = s.nets ∧ s'.net_states = s.net_states ∧
      s'.root_components = s.root_components ∧ s'.component_types = s.component_types ∧
      s'.next_type = s.next_type ∧ s'.mods = s.mods := by
  unfold Sandbox.modifyPeg ObjectStore.tryModify at h
  split at h
  next c hc =>
    simp only [Option.map_eq_some'] at h
    obtain ⟨cs, ⟨c', ⟨p, hp, rfl⟩, rfl⟩, rfl⟩ := h
    have hclt : addr.component < s.components.entries.length := lt_length_of_getElem hc
    have hgetc : s.components.get addr.component = some c := by simp [ObjectStore.get, hc]
    refine ⟨⟨p, ?_, ?_⟩, ?_, rfl, rfl, rfl, rfl, rfl, rfl, rfl⟩
    · simp [Sandbox.getPeg, hgetc, hp]
    · simp only [Sandbox.getPeg, ObjectStore.get, List.getElem?_set_eq_of_lt _ hclt]
      exact ComponentInfo.getPeg_setPeg_self hp
    · intro addr' hne
      simp only [Sandbox.getPeg, ObjectStore.get]
      by_cases hcomp : addr'.component = addr.component
      · rw [hcomp, List.getElem?_set_eq_of_lt _ hclt, hc]
        simp only [Option.bind_some]
        refine ComponentInfo.getPeg_setPeg_other ?_
        by_contra hcon
        push_neg at hcon
        exact hne (by cases addr; cases addr'; simp_all)
      · rw [List.getElem?_set_ne (fun he => hcomp he.symm)]
  next hc => exact absurd h (by simp)

theorem Sandbox.netsModify_spec {s s' : Sandbox} {i : Nat} {f : NetInfo → NetInfo}
    (h : s.netsModify i f = some s') :
    ∃ n, s.nets[i]? = some n ∧ s' = { s with nets := s.nets.set i (f n) } := by
  unfold Sandbox.netsModify at h
  revert h
  split
  next n hn => intro h; exact ⟨n, hn, by simpa using h.symm⟩
  next => intro h; exact absurd h (by simp)

/-! ## The bidirectional cross-reference invariant (spec section 3.2, invariant 1) -/

/-- All live pegs of the sandbox, with their addresses. -/
def Sandbox.pegAddrList (s : Sandbox) : List (PegAddress × PegInfo) :=
  s.components.iter.flatMap fun ic =>
    ic.2.inputs.enum.map (fun ip => (PegAddress.mk ic.1 PegType.input ip.1, ip.2)) ++
      ic.2.outputs.enum.map (fun ip => (PegAddress.mk ic.1 PegType.output ip.1, ip.2))

/-- The bidirectional cross-reference invariant: every `PegInfo.wires` entry
names a live wire having that peg as endpoint `a` or `b`; every
`NetInfo.wires` entry names a live wire whose `net_id` is that net; every
`NetInfo.pegs` entry names a live peg whose `net_id` is that net. -/
def Sandbox.xrefOk (s : Sandbox) : Bool :=
  (s.pegAddrList.all fun pp =>
    pp.2.wires.all fun w =>
      match s.wires.get w with
      | some wire => decide (wire.a = pp.1) || decide (wire.b = pp.1)
      | none => false) &&
  (s.nets.enum.all fun inet =>
    (inet.2.wires.all fun w =>
      match s.wires.get w with
      | some wire => decide (wire.net_id = inet.1)
      | none => false) &&
    (inet.2.pegs.all fun p =>
      match s.getPeg p with
      | some peg => decide (peg.net_id = inet.1)
      | none => false))

/-! ## Concrete edit scenarios used by the claims -/

/-- A one-input component ("MHG.Peg" is a vanilla one-input type). -/
def onePegIn : ComponentBuilder := { ComponentBuilder.new "MHG.Peg" with num_inputs := 1 }

/-- A one-output component ("MHG.Switch" is a vanilla one-output type). -/
def onePegOut : ComponentBuilder := { ComponentBuilder.new "MHG.Switch" with num_outputs := 1 }

/-- Scenario of spec section 8, item 2: empty sandbox, add components `B` and
`C` with one input each (they get component ids 0 and 1 and singleton nets 0
and 1), then wire their input pegs together. -/
def c2Scenario : Option (Except AddWireError Nat × Sandbox) :=
  (Sandbox.new.addComponent onePegIn).bind fun pB =>
    (pB.2.addComponent onePegIn).bind fun pC =>
      pC.2.addWire (PegAddress.mk pB.1 PegType.input 0) (PegAddress.mk pC.1 PegType.input 0) 0

/-- Scenario for the net split: three one-input components (ids 0, 1, 2 with
singleton nets 0, 1, 2), wire the inputs of components 0 and 1 (their nets
merge into net 0; net 2 is swap-renamed to 1), then remove that wire again,
which runs the split check. -/
def c3Scenario : Option Sandbox :=
  (Sandbox.new.addComponent onePegIn).bind fun pA =>
    (pA.2.addComponent onePegIn).bind fun pB =>
      (pB.2.addComponent onePegIn).bind fun _pC =>
        (_pC.2.addWire (PegAddress.mk pA.1 PegType.input 0)
            (PegAddress.mk pB.1 PegType.input 0) 0).bind fun pw =>
          match pw.1 with
          | Except.ok w => pw.2.removeWire w
          | Except.error _ => none

/-! ## Properties of add_component (claim C10) -/

theorem hsInsert_mem_self [DecidableEq α] (l : List α) (x : α) : x ∈ hsInsert l x := by
  unfold hsInsert
  split
  next h => exact h
  next => simp

theorem Sandbox.getComponentType_fields (s : Sandbox) (id : String) :
    (s.getComponentType id).2.components = s.components ∧
      (s.getComponentType id).2.wires = s.wires ∧
      (s.getComponentType id).2.nets = s.nets ∧
      (s.getComponentType id).2.net_states = s.net_states ∧
      (s.getComponentType id).2.root_components = s.root_components := by
  unfold Sandbox.getComponentType
  split <;> exact ⟨rfl, rfl, rfl, rfl, rfl⟩

theorem Sandbox.allocPegs_spec : ∀ (n : Nat) (s : Sandbox),
    s.nets.length = s.net_states.length →
    ∃ pegs s', s.allocPegs n = some (pegs, s') ∧
      s'.components = s.components ∧ s'.wires = s.wires ∧
      s'.root_components = s.root_components ∧
      s'.nets.length = s.nets.length + n ∧
      s'.nets.length = s'.net_states.length ∧
      ∀ p ∈ pegs, p.wires = [] ∧ p.net_id < s'.nets.length := by
  intro n
  induction n with
  | zero =>
    intro s halign
    exact ⟨[], s, rfl, rfl, rfl, rfl, rfl, halign, by simp⟩
  | succ n ih =>
    intro s halign
    have hmk : s.makeNet = some (s.nets.length,
        { s with net_states := s.net_states ++ [false],
                 nets := s.nets ++ [{ wires := [], pegs := [] }] }) := by
      unfold Sandbox.makeNet
      rw [if_pos halign]
    obtain ⟨pegs, s', hrec, hc, hw, hr, hlen, halign', hpegs⟩ :=
      ih { s with net_states := s.net_states ++ [false],
                  nets := s.nets ++ [{ wires := [], pegs := [] }] }
        (by simp [halign])
    refine ⟨{ net_id := s.nets.length, wires := [] } :: pegs, s', ?_, hc, hw, hr, ?_, halign', ?_⟩
    · show s.allocPegs (n + 1) = _
      unfold Sandbox.allocPegs
      rw [hmk]
      simp only [bind, Option.some_bind, hrec, Option.some_bind]
    · simp at hlen
      omega
    · intro p hp
      rcases List.mem_cons.mp hp with rfl | hp
      · refine ⟨rfl, ?_⟩
        show s.nets.length < s'.nets.length
        simp at hlen
        omega
      · exact hpegs p hp

theorem Sandbox.foldlM_netsModify_spec {β : Type} (F : β → NetInfo → NetInfo)
    (net : β → Nat) : ∀ (l : List β) (s : Sandbox),
    (∀ x ∈ l, net x < s.nets.length) →
    ∃ s', l.foldlM (fun t x => t.netsModify (net x) (F x)) s = some s' ∧
      s'.components = s.components ∧ s'.wires = s.wires ∧
      s'.root_components = s.root_components ∧ s'.net_states = s.net_states ∧
      s'.nets.length = s.nets.length := by
  intro l
  induction l with
  | nil => exact fun s _ => ⟨s, rfl, rfl, rfl, rfl, rfl, rfl⟩
  | cons x xs ih =>
    intro s hb
    have hx : net x < s.nets.length := hb x (by simp)
    have hget : s.nets[net x]? = some (s.nets.get ⟨net x, hx⟩) := List.getElem?_eq_getElem hx
    have hstep : s.netsModify (net x) (F x) =
        some { s with nets := s.nets.set (net x) (F x (s.nets.get ⟨net x, hx⟩)) } := by
      unfold Sandbox.netsModify
      rw [hget]
    obtain ⟨s', hfold, hc, hw, hr, hst, hlen⟩ :=
      ih { s with nets := s.nets.set (net x) (F x (s.nets.get ⟨net x, hx⟩)) }
        (by intro y hy; simp only [List.length_set]; exact hb y (List.mem_cons_of_mem _ hy))
    refine ⟨s', ?_, hc, hw, hr, hst, by simpa using hlen⟩
    show List.foldlM _ _ (x :: xs) = _
    rw [List.foldlM_cons, hstep]
    simpa using hfold

theorem mem_of_mem_enumFrom {α : Type _} {l : List α} {n : Nat} {ix : Nat × α}
    (h : ix ∈ l.enumFrom n) : ix.2 ∈ l := by
  induction l generalizing n ix with
  | nil => simp [List.enumFrom] at h
  | cons x xs ih =>
    rcases List.mem_cons.mp h with rfl | h
    · simp
    · exact List.mem_cons_of_mem _ (ih h)

theorem mem_of_mem_enum {α : Type _} {l : List α} {ix : Nat × α} (h : ix ∈ l.enum) :
    ix.2 ∈ l := mem_of_mem_enumFrom h

/-- Claim C10: under the implicit precondition — a well-formed sandbox (sane
free list, aligned net-state bitset) whose `parent`, when set, is a live
component — `add_component` completes without panicking, returns an id that
was not live before, registers the child in the parent's `children` set when a
parent was given, and adds it to `root_components` otherwise. -/
theorem c10_add_component_precondition :
    ∀ (s : Sandbox) (builder : ComponentBuilder),
      s.components.freeOk →
      s.nets.length = s.net_states.length →
      (∀ par, builder.parent = some par → (s.components.get par).isSome) →
      ∃ id s', s.addComponent builder = some (id, s') ∧
        s.components.get id = none ∧
        (∀ par, builder.parent = some par →
          ∃ c, s'.components.get par = some c ∧ id ∈ c.children) ∧
        (builder.parent = none → id ∈ s'.root_components) := by
  intro s builder hfree halign hpar
  rcases hgt : s.getComponentType builder.id with ⟨t0, sT⟩
  have hTf := Sandbox.getComponentType_fields s builder.id
  rw [hgt] at hTf
  obtain ⟨hTc, hTw, hTn, hTst, hTr⟩ := hTf
  obtain ⟨ins, s1, hallocI, h1c, h1w, h1r, h1len, h1align, h1pegs⟩ :=
    Sandbox.allocPegs_spec builder.num_inputs sT (by rw [hTn, hTst]; exact halign)
  obtain ⟨outs, s2, hallocO, h2c, h2w, h2r, h2len, h2align, h2pegs⟩ :=
    Sandbox.allocPegs_spec builder.num_outputs s1 h1align
  set info : ComponentInfo :=
    { type_id := t0, parent := builder.parent, position := builder.position,
      rotation := builder.rotation, children := [], inputs := ins, outputs := outs,
      custom_data := builder.custom_data } with hinfo
  have hfree2 : s2.components.freeOk := by rw [h2c, h1c, hTc]; exact hfree
  obtain ⟨idRaw, cs, hins⟩ := ObjectStore.insert_isSome hfree2 info
  have hins0 : s.components.insert info = some (idRaw, cs) := by
    rw [← hTc, ← h1c, ← h2c]; exact hins
  have hgetid : cs.get idRaw = some info := ObjectStore.insert_get_self hins
  -- the two peg-registration folds
  have hinlen : s1.nets.length ≤ s2.nets.length := by omega
  obtain ⟨s3, hfold1, h3c, h3w, h3r, h3st, h3len⟩ :=
    Sandbox.foldlM_netsModify_spec
      (fun ip n => { n with pegs := hsInsert n.pegs (PegAddress.mk idRaw PegType.input ip.1) })
      (fun (ip : Nat × PegInfo) => ip.2.net_id) info.inputs.enum
      { s2 with components := cs }
      (by
        intro ip hip
        show ip.2.net_id < s2.nets.length
        have := (h1pegs ip.2 (mem_of_mem_enum hip)).2
        omega)
  obtain ⟨s4, hfold2, h4c, h4w, h4r, h4st, h4len⟩ :=
    Sandbox.foldlM_netsModify_spec
      (fun ip n => { n with pegs := hsInsert n.pegs (PegAddress.mk idRaw PegType.output ip.1) })
      (fun (ip : Nat × PegInfo) => ip.2.net_id) info.outputs.enum s3
      (by
        intro ip hip
        have hlt := (h2pegs ip.2 (mem_of_mem_enum hip)).2
        have h3len' : s3.nets.length = s2.nets.length := h3len
        show ip.2.net_id < s3.nets.length
        omega)
  cases hbp : builder.parent with
  | some par =>
      have hlive := hpar par hbp
      rcases hc0 : s.components.get par with _ | c0
      · rw [hc0] at hlive; simp at hlive
      have hcsget : cs.get par = some c0 := ObjectStore.insert_get_other hins0 hc0
      obtain ⟨cs', hmod, hget', _⟩ :=
        ObjectStore.modify_spec (fun c => { c with children := hsInsert c.children idRaw })
          hcsget
      have hmod4 : s4.components.modify par
          (fun c => { c with children := hsInsert c.children idRaw }) = some cs' := by
        rw [h4c, h3c]; exact hmod
      refine ⟨idRaw, { s4 with components := cs' }, ?_, ObjectStore.insert_get_none hins0,
        ?_, ?_⟩
      · unfold Sandbox.addComponent
        rw [hgt]
        show (sT.allocPegs builder.num_inputs).bind _ = _
        refine Option.bind_eq_some.mpr ⟨(ins, s1), hallocI, ?_⟩
        show (s1.allocPegs builder.num_outputs).bind _ = _
        refine Option.bind_eq_some.mpr ⟨(outs, s2), hallocO, ?_⟩
        show s2.insertComponent info = _
        unfold Sandbox.insertComponent
        show (s2.components.insert info).bind _ = _
        refine Option.bind_eq_some.mpr ⟨(idRaw, cs), hins, ?_⟩
        show (cs.get idRaw).bind _ = _
        refine Option.bind_eq_some.mpr ⟨info, hgetid, ?_⟩
        refine Option.bind_eq_some.mpr ⟨s3, hfold1, ?_⟩
        refine Option.bind_eq_some.mpr ⟨s4, hfold2, ?_⟩
        show (match builder.parent with
          | some parent => (s4.components.modify parent fun c =>
              { c with children := hsInsert c.children idRaw }).bind fun cs' =>
                some (idRaw, { s4 with components := cs' })
          | none => some (idRaw,
              { s4 with root_components := hsInsert s4.root_components idRaw })) = _
        rw [hbp]
        exact Option.bind_eq_some.mpr ⟨cs', hmod4, rfl⟩
      · intro par' hpar'
        injection hpar' with hpe
        subst hpe
        exact ⟨_, hget', hsInsert_mem_self _ _⟩
      · intro hnone
        exact absurd hnone (by simp)
  | none =>
      refine ⟨idRaw, { s4 with root_components := hsInsert s4.root_components idRaw }, ?_,
        ObjectStore.insert_get_none hins0, ?_, ?_⟩
      · unfold Sandbox.addComponent
        rw [hgt]
        show (sT.allocPegs builder.num_inputs).bind _ = _
        refine Option.bind_eq_some.mpr ⟨(ins, s1), hallocI, ?_⟩
        show (s1.allocPegs builder.num_outputs).bind _ = _
        refine Option.bind_eq_some.mpr ⟨(outs, s2), hallocO, ?_⟩
        show s2.insertComponent info = _
        unfold Sandbox.insertComponent
        show (s2.components.insert info).bind _ = _
        refine Option.bind_eq_some.mpr ⟨(idRaw, cs), hins, ?_⟩
        show (cs.get idRaw).bind _ = _
        refine Option.bind_eq_some.mpr ⟨info, hgetid, ?_⟩
        refine Option.bind_eq_some.mpr ⟨s3, hfold1, ?_⟩
        refine Option.bind_eq_some.mpr ⟨s4, hfold2, ?_⟩
        show (match builder.parent with
          | some parent => (s4.components.modify parent fun c =>
              { c with children := hsInsert c.children idRaw }).bind fun cs' =>
                some (idRaw, { s4 with components := cs' })
          | none => some (idRaw,
              { s4 with root_components := hsInsert s4.root_components idRaw })) = _
        rw [hbp]
      · intro par' hpar'
        exact absurd hpar' (by simp)
      · intro _
        exact hsInsert_mem_self _ _

/-- Concrete one-component sandbox (a circuit board with no pegs, id 0). -/
def c10Start : Sandbox :=
  match Sandbox.new.addComponent (ComponentBuilder.new "MHG.CircuitBoard") with
  | some p => p.2
  | none => Sandbox.new

/-- A one-input peg component parented to component 0. -/
def c10Builder : ComponentBuilder :=
  { ComponentBuilder.new "MHG.Peg" with parent := some 0, num_inputs := 1 }

/-- Instance of claim C10: adding a child to the live component 0 of a
concrete sandbox succeeds, returns a fresh id, and registers it in the
parent's `children` set. -/
theorem c10_add_component_precondition_witness :
    ∃ id s', c10Start.addComponent c10Builder = some (id, s') ∧
      c10Start.components.get id = none ∧
      (∀ par, c10Builder.parent = some par →
        ∃ c, s'.components.get par = some c ∧ id ∈ c.children) ∧
      (c10Builder.parent = none → id ∈ s'.root_components) :=
  c10_add_component_precondition c10Start c10Builder
    (by
      intro e he
      rw [show (c10Start.components.entries)[c10Start.components.first_vacant]? =
        (none : Option (Entry ComponentInfo)) from rfl] at he
      exact Option.noConfusion he)
    rfl
    (by
      intro par h
      injection h with h'
      subst h'
      rfl)

/-! ## Properties of insert_wire (claims C4 and C5) -/

/-- Whenever `wireFinish` returns at all, its result is `Ok`. -/
theorem Sandbox.wireFinish_ok {s s' : Sandbox} {a b : PegAddress} {rot nid : Nat}
    {r : Except AddWireError Nat}
    (h : s.wireFinish a b rot nid = some (r, s')) : ∃ w, r = Except.ok w := by
  unfold Sandbox.wireFinish at h
  simp only [bind, Option.bind_eq_some] at h
  obtain ⟨⟨wid, ws⟩, _, h⟩ := h
  obtain ⟨s1, _, h⟩ := h
  obtain ⟨s2, _, h⟩ := h
  obtain ⟨s3, _, h⟩ := h
  simp only [Option.some.injEq, Prod.mk.injEq] at h
  exact ⟨wid, h.1.symm⟩

theorem Sandbox.insertWire_error_cases {s s' : Sandbox} {a b : PegAddress} {rot : Nat}
    {d : Option Nat} {e : AddWireError}
    (h : s.insertWire a b rot d = some (Except.error e, s')) :
    e = AddWireError.invalidPegAddress ∧ s' = s ∧
      ((a.peg_type = PegType.output ∧ b.peg_type = PegType.output) ∨
        s.getPeg a = none ∨ s.getPeg b = none) := by
  unfold Sandbox.insertWire at h
  split at h
  next hcond =>
    simp only [Option.some.injEq, Prod.mk.injEq] at h
    exact ⟨by cases e; rfl, h.2.symm, Or.inl hcond⟩
  next hcond =>
    split at h
    next hga =>
      simp only [Option.some.injEq, Prod.mk.injEq] at h
      exact ⟨by cases e; rfl, h.2.symm, Or.inr (Or.inl hga)⟩
    next pa hga =>
      split at h
      next hgb =>
        simp only [Option.some.injEq, Prod.mk.injEq] at h
        exact ⟨by cases e; rfl, h.2.symm, Or.inr (Or.inr hgb)⟩
      next pb hgb =>
        split at h
        next w0 hw => simp at h
        next hw =>
          exfalso
          split at h
          next nid =>
            split at h
            · obtain ⟨w, hw⟩ := Sandbox.wireFinish_ok h
              exact absurd hw (by simp)
            · exact absurd h (by simp)
          next =>
            split at h
            · obtain ⟨w, hw⟩ := Sandbox.wireFinish_ok h
              exact absurd hw (by simp)
            · split at h
              · obtain ⟨w, hw⟩ := Sandbox.wireFinish_ok h
                exact absurd hw (by simp)
              · simp only [Option.bind_eq_some] at h
                obtain ⟨ms, _, h⟩ := h
                obtain ⟨w, hw⟩ := Sandbox.wireFinish_ok h
                exact absurd hw (by simp)

/-- A peg update that does not touch `net_id` preserves every live peg's net. -/
theorem Sandbox.modifyPeg_net_preserved {s s' : Sandbox} {addr : PegAddress}
    {f : PegInfo → PegInfo} (h : s.modifyPeg addr f = some s')
    (hf : ∀ p, (f p).net_id = p.net_id) :
    ∀ x p, s.getPeg x = some p → ∃ p', s'.getPeg x = some p' ∧ p'.net_id = p.net_id := by
  intro x p hx
  obtain ⟨⟨q, hq, hq'⟩, hother, _⟩ := Sandbox.modifyPeg_spec h
  by_cases hxa : x = addr
  · subst hxa
    rw [hx] at hq
    cases hq
    exact ⟨f p, hq', hf p⟩
  · exact ⟨p, by rw [hother x hxa, hx], rfl⟩

/-- Full characterization of a completed `wireFinish`: the result is `Ok` with
a freshly allocated wire id bound to the new `WireInfo`, the net count is
unchanged, and every live peg keeps its net. -/
theorem Sandbox.wireFinish_spec {s s' : Sandbox} {a b : PegAddress} {rot nid : Nat}
    {r : Except AddWireError Nat} (h : s.wireFinish a b rot nid = some (r, s')) :
    ∃ wid, r = Except.ok wid ∧ s.wires.get wid = none ∧
      s'.wires.get wid = some { a := a, b := b, net_id := nid, rotation := rot } ∧
      s'.nets.length = s.nets.length ∧
      (∀ x p, s.getPeg x = some p → ∃ p', s'.getPeg x = some p' ∧ p'.net_id = p.net_id) := by
  unfold Sandbox.wireFinish at h
  simp only [bind, Option.bind_eq_some] at h
  obtain ⟨⟨wid, ws⟩, hins, h⟩ := h
  obtain ⟨s2, hm1, h⟩ := h
  obtain ⟨s3, hm2, h⟩ := h
  obtain ⟨s4, hn, h⟩ := h
  simp only [Option.some.injEq, Prod.mk.injEq] at h
  obtain ⟨hr, rfl⟩ := h
  obtain ⟨n, hnet, rfl⟩ := Sandbox.netsModify_spec hn
  have sp1 := Sandbox.modifyPeg_spec hm1
  have sp2 := Sandbox.modifyPeg_spec hm2
  refine ⟨wid, hr.symm, ObjectStore.insert_get_none hins, ?_, ?_, ?_⟩
  · show s3.wires.get wid = _
    rw [sp2.2.2.1, sp1.2.2.1]
    exact ObjectStore.insert_get_self hins
  · show (s3.nets.set nid (_ : NetInfo)).length = s.nets.length
    rw [List.length_set, sp2.2.2.2.1, sp1.2.2.2.1]
  · intro x p hx
    have h1 := Sandbox.modifyPeg_net_preserved hm1 (fun _ => rfl) x p hx
    obtain ⟨p1, hp1, hp1n⟩ := h1
    obtain ⟨p2, hp2, hp2n⟩ := Sandbox.modifyPeg_net_preserved hm2 (fun _ => rfl) x p1 hp1
    exact ⟨p2, hp2, hp2n.trans hp1n⟩

/-- Claim C4: a successful `add_wire` whose endpoints are exactly one output
peg and one input peg keeps the net count unchanged, leaves every live peg's
net (in particular the input peg's) unchanged, and — when no wire already
connected the two pegs — binds a fresh wire whose `net_id` is the output
peg's net. -/
theorem c4_add_wire_output_input :
    ∀ (s : Sandbox) (a b : PegAddress) (rot w : Nat) (s' : Sandbox),
      a.peg_type ≠ b.peg_type →
      s.addWire a b rot = some (Except.ok w, s') →
      s'.nets.length = s.nets.length ∧
      (∀ x p, s.getPeg x = some p → ∃ p', s'.getPeg x = some p' ∧ p'.net_id = p.net_id) ∧
      (∀ pa pb, s.getPeg a = some pa → s.getPeg b = some pb →
        (pa.wires.filter fun v => v ∈ pb.wires).head? = none →
        s.wires.get w = none ∧
          ∃ info, s'.wires.get w = some info ∧ info.a = a ∧ info.b = b ∧
            info.net_id =
              (if a.peg_type = PegType.output then pa.net_id else pb.net_id)) := by
  intro s a b rot w s' hne h
  unfold Sandbox.addWire Sandbox.insertWire at h
  rw [if_neg (fun hc => hne (hc.1.trans hc.2.symm))] at h
  split at h
  next hga => simp at h
  next pa0 hga =>
    split at h
    next hgb => simp at h
    next pb0 hgb =>
      split at h
      next w0 hw =>
        simp only [Option.some.injEq, Prod.mk.injEq, Except.ok.injEq] at h
        obtain ⟨rfl, rfl⟩ := h
        refine ⟨rfl, fun x p hx => ⟨p, hx, rfl⟩, ?_⟩
        intro pa pb hpa hpb hfresh
        rw [hga] at hpa
        rw [hgb] at hpb
        cases hpa
        cases hpb
        rw [hfresh] at hw
        exact absurd hw (by simp)
      next hw =>
        split at h
        next nid hd => exact absurd hd (by simp)
        next =>
          split at h
          next hao =>
            obtain ⟨wid, hr, hfr, hget, hlen, hpres⟩ := Sandbox.wireFinish_spec h
            cases hr
            refine ⟨hlen, hpres, ?_⟩
            intro pa pb hpa hpb _
            rw [hga] at hpa
            rw [hgb] at hpb
            cases hpa
            cases hpb
            exact ⟨hfr, ⟨_, hget, rfl, rfl, by rw [if_pos hao]⟩⟩
          next hao =>
            split at h
            next hbo =>
              obtain ⟨wid, hr, hfr, hget, hlen, hpres⟩ := Sandbox.wireFinish_spec h
              cases hr
              refine ⟨hlen, hpres, ?_⟩
              intro pa pb hpa hpb _
              rw [hga] at hpa
              rw [hgb] at hpb
              cases hpa
              cases hpb
              exact ⟨hfr, ⟨_, hget, rfl, rfl, by rw [if_neg hao]⟩⟩
            next hbo =>
              exfalso
              cases hta : a.peg_type <;> cases htb : b.peg_type <;> simp_all

/-- Concrete sandbox for the C4 scenario: component 0 has one output (net 0),
component 1 has one input (net 1). -/
def c4Start : Sandbox :=
  match (Sandbox.new.addComponent onePegOut).bind (fun p => p.2.addComponent onePegIn) with
  | some p => p.2
  | none => Sandbox.new

/-- The C4 scenario's wire call: `add_wire(A.out0, B.in0, 0.0)`. -/
def c4Res : Option (Except AddWireError Nat × Sandbox) :=
  c4Start.addWire (PegAddress.mk 0 PegType.output 0) (PegAddress.mk 1 PegType.input 0) 0

def c4End : Sandbox :=
  match c4Res with
  | some p => p.2
  | none => c4Start

/-- Spec section 8, scenario 1, as the concrete instance of claim C4: two nets
before the wire, two nets after; `B.in0` keeps net 1; the fresh wire 0 carries
`A.out0`'s net 0. -/
theorem c4_add_wire_output_input_witness :
    c4Start.nets.length = 2 ∧
      c4End.nets.length = c4Start.nets.length ∧
      (∃ p', c4End.getPeg (PegAddress.mk 1 PegType.input 0) = some p' ∧ p'.net_id = 1) ∧
      (c4Start.wires.get 0 = none ∧
        ∃ info, c4End.wires.get 0 = some info ∧
          info.a = PegAddress.mk 0 PegType.output 0 ∧
          info.b = PegAddress.mk 1 PegType.input 0 ∧ info.net_id = 0) := by
  have h := c4_add_wire_output_input c4Start (PegAddress.mk 0 PegType.output 0)
    (PegAddress.mk 1 PegType.input 0) 0 0 c4End (by decide) (by rfl)
  refine ⟨rfl, h.1, ?_, ?_⟩
  · exact h.2.1 (PegAddress.mk 1 PegType.input 0) { net_id := 1, wires := [] } (by rfl)
  · have h3 := h.2.2 { net_id := 0, wires := [] } { net_id := 1, wires := [] }
      (by rfl) (by rfl) (by rfl)
    exact ⟨h3.1, h3.2.imp fun info hi => ⟨hi.1, hi.2.1, hi.2.2.1, hi.2.2.2⟩⟩

theorem Sandbox.insertWire_error_of {s : Sandbox} {a b : PegAddress} (rot : Nat)
    (d : Option Nat)
    (hcond : (a.peg_type = PegType.output ∧ b.peg_type = PegType.output) ∨
      s.getPeg a = none ∨ s.getPeg b = none) :
    s.insertWire a b rot d = some (Except.error AddWireError.invalidPegAddress, s) := by
  unfold Sandbox.insertWire
  by_cases hboth : a.peg_type = PegType.output ∧ b.peg_type = PegType.output
  · rw [if_pos hboth]
  · rw [if_neg hboth]
    rcases hcond with hcond | hga | hgb
    · exact absurd hcond hboth
    · rw [hga]
    · cases hga : s.getPeg a with
      | none => rfl
      | some pa => rw [hgb]

/-- Claim C5: `add_wire(a, b, rotation)` returns `Err(InvalidPegAddress)` if
and only if both endpoints are output pegs or at least one endpoint does not
resolve to a live peg; and an error leaves the sandbox unchanged (the
validation happens before any mutation). -/
theorem c5_add_wire_invalid_peg_iff :
    ∀ (s : Sandbox) (a b : PegAddress) (rot : Nat),
      (s.addWire a b rot = some (Except.error AddWireError.invalidPegAddress, s) ↔
        ((a.peg_type = PegType.output ∧ b.peg_type = PegType.output) ∨
          s.getPeg a = none ∨ s.getPeg b = none)) ∧
      (∀ e s', s.addWire a b rot = some (Except.error e, s') → s' = s) := by
  intro s a b rot
  refine ⟨⟨fun h => (Sandbox.insertWire_error_cases h).2.2,
    fun hcond => Sandbox.insertWire_error_of rot none hcond⟩,
    fun e s' h => (Sandbox.insertWire_error_cases h).2.1⟩

/-- A concrete sandbox with two one-output components (ids 0 and 1). -/
def c5Start : Sandbox :=
  match (Sandbox.new.addComponent onePegOut).bind (fun p => p.2.addComponent onePegOut) with
  | some p => p.2
  | none => Sandbox.new

/-- Instance of claim C5 at concrete inputs: wiring two output pegs of a
concrete two-component sandbox fails with `InvalidPegAddress` and leaves the
sandbox unchanged. -/
theorem c5_add_wire_invalid_peg_witness :
    c5Start.addWire (PegAddress.mk 0 PegType.output 0) (PegAddress.mk 1 PegType.output 0) 0 =
      some (Except.error AddWireError.invalidPegAddress, c5Start) :=
  ((c5_add_wire_invalid_peg_iff c5Start _ _ 0).1).mpr (Or.inl ⟨rfl, rfl⟩)

/-- Claim C2: in the spec's scenario (empty sandbox, components `B` and `C`
with one input each, then `add_wire(B.in0, C.in0, r)`) the call is claimed to
succeed and leave one merged net.  On the code it panics instead: the merge
removes the smaller net, which here is the net at the last dense index, and
`remove_net` then unwraps `nets.get(rename.dest)` on the now out-of-range
index.  The model evaluates the whole call to `none` (panic). -/
theorem c2_add_wire_two_inputs_panics : c2Scenario = none := by rfl

/-- Claim C3: the bidirectional cross-reference invariant is claimed to be
re-established after `remove_wire` splits a net.  On the code it is not:
`check_split` rewrites the `net_id` field of every peg and wire reached from
endpoint `a` but never moves them out of the old net's `pegs`/`wires` sets nor
into the fresh net's sets.  In the concrete reachable state `c3Scenario`, the
old net 0 still lists the peg `(component 0, input 0)` among its pegs while
that peg's `net_id` is the fresh net 2, so the invariant evaluates to
`false`. -/
theorem c3_split_breaks_xref_invariant :
    c3Scenario.map Sandbox.xrefOk = some false ∧
      c3Scenario.bind (fun s => (s.nets[0]?).map NetInfo.pegs) =
        some [PegAddress.mk 0 PegType.input 0, PegAddress.mk 1 PegType.input 0] ∧
      c3Scenario.bind (fun s => (s.getPeg (PegAddress.mk 0 PegType.input 0)).map
        PegInfo.net_id) = some 2 := by
  exact ⟨rfl, rfl, rfl⟩

/-! ## Sandbox-to-file serializer (src/sandbox/serialize.rs)

The `crate::latest` record types are embedded at the value level (`i32`
fields that always carry non-negative indices become `Nat` with the
`try_into().unwrap()` range checks made explicit). -/

structure ComponentS where
  address : Nat
  parent : Nat
  type_id : Nat
  position : Nat × Nat × Nat
  rotation : Nat × Nat × Nat × Nat
  inputs : List Nat
  outputs : List Nat
  custom_data : Option (List Nat)
deriving DecidableEq, Repr

structure PegAddressS where
  peg_type : PegType
  component_address : Nat
  peg_index : Nat
deriving DecidableEq, Repr

structure WireS where
  start_peg : PegAddressS
  end_peg : PegAddressS
  circuit_state_id : Nat
  rotation : Nat
deriving DecidableEq, Repr

inductive CircuitStatesS where
  | world (circuit_states : List Nat)
  | subassembly (on_states : List Nat)
deriving DecidableEq, Repr

inductive SaveTypeS where
  | world
  | subassembly
deriving DecidableEq, Repr

structure BlotterFileS where
  game_version : Nat × Nat × Nat × Nat
  save_type : SaveTypeS
  mods : List ModInfoS
  component_types : List (Nat × String)
  components : List ComponentS
  wires : List WireS
  circuit_states : CircuitStatesS
deriving DecidableEq, Repr

/-- The serialization context of `Serializer`: fresh `u32` addresses starting
at 1, and the `ComponentId -> u32` map (`insert` prepends so that lookup sees
the newest binding, like `HashMap::insert` overwriting). -/
structure SerState where
  next_component_id : Nat
  component_id_map : List (Nat × Nat)
deriving DecidableEq, Repr

def SerState.new : SerState := { next_component_id := 1, component_id_map := [] }

/-- `Serializer::register_component`. -/
def SerState.register (st : SerState) (id : Nat) : Nat × SerState :=
  (st.next_component_id,
    { next_component_id := st.next_component_id + 1,
      component_id_map := (id, st.next_component_id) :: st.component_id_map })

/-- `Serializer::get_component` (`self.component_id_map[&id]`, which panics on
a missing key — `none` here). -/
def SerState.findAddr (st : SerState) (id : Nat) : Option Nat :=
  st.component_id_map.lookup id

/-- `NetId::into_raw`: `usize -> i32`, panicking (`none`) when out of range. -/
def netIdIntoRaw (n : Nat) : Option Nat :=
  if n < 2 ^ 31 then some n else none

/-- `Serializer::serialize_component` (with `serialize_input` /
`serialize_output` inlined): allocate the address, map the parent (0 when
absent, a panicking map lookup otherwise), and emit the peg net ids. -/
def serializeComponent (st : SerState) (id : Nat) (info : ComponentInfo) :
    Option (ComponentS × SerState) := do
  let (addr, st') := st.register id
  let parent ← match info.parent with
    | none => some 0
    | some pid => st'.findAddr pid
  let inputs ← info.inputs.mapM fun p => netIdIntoRaw p.net_id
  let outputs ← info.outputs.mapM fun p => netIdIntoRaw p.net_id
  some ({ address := addr, parent := parent, type_id := info.type_id,
          position := info.position, rotation := info.rotation,
          inputs := inputs, outputs := outputs,
          custom_data := info.custom_data }, st')

/-- `Serializer::serialize_peg_address`. -/
def serializePegAddress (st : SerState) (addr : PegAddress) : Option PegAddressS := do
  let caddr ← st.findAddr addr.component
  let idx ← netIdIntoRaw addr.peg_index
  some { peg_type := addr.peg_type, component_address := caddr, peg_index := idx }

/-- `Serializer::serialize_wire`. -/
def serializeWire (st : SerState) (w : WireInfo) : Option WireS := do
  let sp ← serializePegAddress st w.a
  let ep ← serializePegAddress st w.b
  let cs ← netIdIntoRaw w.net_id
  some { start_peg := sp, end_peg := ep, circuit_state_id := cs, rotation := w.rotation }

/-- The depth-first pre-order traversal of `From<&Sandbox> for BlotterFile`:
`stack.pop()` takes the most recently pushed id, each popped component is
fetched (`unwrap`), its children are pushed, and its record is appended. -/
def serializeLoop (sb : Sandbox) :
    Nat → List Nat → SerState → List ComponentS → Option (List ComponentS × SerState)
  | _, [], st, acc => some (acc, st)
  | 0, _ :: _, _, _ => none
  | fuel + 1, id :: rest, st, acc => do
      let comp ← sb.components.get id
      let (c, st') ← serializeComponent st id comp
      serializeLoop sb fuel (comp.children.reverse ++ rest) st' (acc ++ [c])

/-- A bit list packed into bytes, LSB first (the backing byte vector of a
`BitVec<u8>` whose uninitialized tail bits are forced to 0). -/
def bitsToByte (bits : List Bool) : Nat :=
  bits.foldr (fun b acc => 2 * acc + (if b then 1 else 0)) 0

def packBits : List Bool → List Nat
  | [] => []
  | b :: l => bitsToByte ((b :: l).take 8) :: packBits ((b :: l).drop 8)
termination_by l => l.length
decreasing_by simp; omega

/-- `From<&Sandbox> for BlotterFile`: serialize components by depth-first
pre-order from the root set, then the wires, the meta info, and the packed
net-state bitset as `WorldFormat`.  (The initial stack is `root_components` in
iteration order with `Vec::pop` taking from the back, hence the reversal.) -/
def blotterFileFromSandbox (sb : Sandbox) : Option BlotterFileS := do
  let (components, st) ← serializeLoop sb (sb.components.entries.length + 1)
      sb.root_components.reverse SerState.new []
  let wires ← (sb.wires.iter.map Prod.snd).mapM (serializeWire st)
  some { game_version := (0, 91, 0, 510),
         save_type := SaveTypeS.world,
         mods := sb.mods,
         component_types := sb.component_types.map (fun nt => (nt.2, nt.1)),
         components := components,
         wires := wires,
         circuit_states := CircuitStatesS.world (packBits sb.net_states) }

/-! ## File-to-sandbox deserializer (src/sandbox/serialize.rs, second half) -/

/-- `NetId::from_raw`: `i32 -> usize`, panicking (`none`) on a negative value
(bit pattern at or above 2^31). -/
def netIdFromRaw (raw : Nat) : Option Nat :=
  if raw < 2 ^ 31 then some raw else none

/-- `Deserializer::deserialize_peg_address` (component-address map lookup
panics when missing; the `i32 -> usize` peg index conversion panics when
negative). -/
def deserializePegAddress (idMap : List (Nat × Nat)) (addr : PegAddressS) :
    Option PegAddress := do
  let comp ← idMap.lookup addr.component_address
  let idx ← netIdFromRaw addr.peg_index
  some { component := comp, peg_type := addr.peg_type, peg_index := idx }

/-- `Deserializer::deserialize_component` (with `deserialize_input` /
`deserialize_output` inlined). -/
def deserializeComponent (idMap : List (Nat × Nat)) (c : ComponentS) :
    Option ComponentInfo := do
  let parent ← if c.parent = 0 then some none else (idMap.lookup c.parent).map some
  let inputs ← c.inputs.mapM fun i => (netIdFromRaw i).map fun n =>
    ({ net_id := n, wires := [] } : PegInfo)
  let outputs ← c.outputs.mapM fun i => (netIdFromRaw i).map fun n =>
    ({ net_id := n, wires := [] } : PegInfo)
  some { type_id := c.type_id, parent := parent, position := c.position,
         rotation := c.rotation, children := [], inputs := inputs, outputs := outputs,
         custom_data := c.custom_data }

/-- A `BitVec<u8>` built with `BitVec::from_slice`: every bit of every byte,
LSB first. -/
def byteBits (byte : Nat) : List Bool :=
  [byte % 2 = 1, byte / 2 % 2 = 1, byte / 4 % 2 = 1, byte / 8 % 2 = 1,
   byte / 16 % 2 = 1, byte / 32 % 2 = 1, byte / 64 % 2 = 1, byte / 128 % 2 = 1]

/-- `From<&BlotterFile> for Sandbox`: build an empty sandbox with the file's
meta info; `WorldFormat` pre-creates `8 * |bytes|` empty nets and seeds the
bitset, while any other circuit-state format hits
`panic!("unsupported circuit state format")` (`none`); then the components
are inserted in file order (registering the address map as they go) and the
wires are inserted through `insert_wire` with their declared net id
(`.unwrap()` turns an `Err` into a panic). -/
def sandboxFromBlotterFile (file : BlotterFileS) : Option Sandbox :=
  match file.circuit_states with
  | CircuitStatesS.subassembly _ => none
  | CircuitStatesS.world bytes => do
      let sb0 := Sandbox.withMetaInfo
        (file.component_types.map fun ct => (ct.2, ct.1)) file.mods
      let sb0 := { sb0 with
        net_states := bytes.foldr (fun byte acc => byteBits byte ++ acc) [],
        nets := List.replicate (8 * bytes.length) { wires := [], pegs := [] } }
      let (sb1, idMap) ← file.components.foldlM
        (fun (acc : Sandbox × List (Nat × Nat)) c => do
          let info ← deserializeComponent acc.2 c
          let (cid, sb') ← acc.1.insertComponent info
          some (sb', (c.address, cid) :: acc.2))
        (sb0, ([] : List (Nat × Nat)))
      file.wires.foldlM
        (fun (sb : Sandbox) w => do
          let a ← deserializePegAddress idMap w.start_peg
          let b ← deserializePegAddress idMap w.end_peg
          let nid ← netIdFromRaw w.circuit_state_id
          let (r, sb') ← sb.insertWire a b w.rotation (some nid)
          match r with
          | Except.ok _ => some sb'
          | Except.error _ => none)
        sb1

/-! ## Claim C7: pre-order serialization puts parents before children -/

theorem lookup_mem {l : List (Nat × Nat)} {k v : Nat} (h : l.lookup k = some v) :
    (k, v) ∈ l := by
  induction l with
  | nil => simp [List.lookup] at h
  | cons p tl ih =>
    obtain ⟨k', v'⟩ := p
    rw [List.lookup] at h
    split at h
    next heq =>
      simp only [Option.some.injEq] at h
      subst h
      have : k = k' := by simpa using heq
      subst this
      exact List.mem_cons_self _ _
    next => exact List.mem_cons_of_mem _ (ih h)

theorem lookup_cons_self {l : List (Nat × Nat)} {k v : Nat} :
    ((k, v) :: l).lookup k = some v := by
  simp [List.lookup]

theorem lookup_cons_isSome {l : List (Nat × Nat)} {k k' v' : Nat}
    (h : l.lookup k ≠ none) : (((k', v') :: l).lookup k) ≠ none := by
  rw [List.lookup]
  split
  next => simp
  next => exact h

theorem getElem_mem_enumFrom {α : Type _} {l : List α} :
    ∀ {n i : Nat} {a : α}, l[i]? = some a → (n + i, a) ∈ l.enumFrom n := by
  induction l with
  | nil => intro n i a h; simp at h
  | cons x xs ih =>
    intro n i a h
    cases i with
    | zero =>
      simp only [List.getElem?_cons_zero, Option.some.injEq] at h
      subst h
      simp [List.enumFrom]
    | succ i =>
      rw [List.getElem?_cons_succ] at h
      have := ih (n := n + 1) h
      have heq : n + 1 + i = n + (i + 1) := by omega
      rw [heq] at this
      exact List.mem_cons_of_mem _ this

/-- A live entry of an object store is in its `iter` listing. -/
theorem ObjectStore.get_mem_iter {T : Type} {s : ObjectStore T} {id : Nat} {c : T}
    (h : s.get id = some c) : (id, c) ∈ s.iter := by
  have hocc : s.entries[id]? = some (Entry.occupied c) := by
    unfold ObjectStore.get at h
    revert h
    split <;> simp_all
  have henum : (id, Entry.occupied c) ∈ s.entries.enum := by
    have := getElem_mem_enumFrom (n := 0) hocc
    simpa [List.enum] using this
  unfold ObjectStore.iter
  exact List.mem_filterMap.mpr ⟨(id, Entry.occupied c), henum, rfl⟩

/-- The parent/children cross-references are consistent: every root id is a
live component without parent; every child entry is a live component whose
parent is the listing component; every parent reference is a live component
listing the child. -/
def Sandbox.parentChildOk (sb : Sandbox) : Bool :=
  (sb.root_components.all fun id =>
    match sb.components.get id with
    | some c => c.parent = none
    | none => false) &&
  (sb.components.iter.all fun ic =>
    (ic.2.children.all fun ch =>
      match sb.components.get ch with
      | some cc => cc.parent = some ic.1
      | none => false) &&
    (match ic.2.parent with
     | some pid =>
        match sb.components.get pid with
        | some pc => decide (ic.1 ∈ pc.children)
        | none => false
     | none => true))

theorem Sandbox.parentChildOk_root {sb : Sandbox} (h : sb.parentChildOk = true) :
    ∀ id ∈ sb.root_components, ∀ c, sb.components.get id = some c → c.parent = none := by
  intro id hid c hc
  have h' : (sb.root_components.all fun id =>
      match sb.components.get id with
      | some c => c.parent = none
      | none => false) = true := by
    unfold Sandbox.parentChildOk at h
    exact (Bool.and_eq_true_eq_eq_true_and_eq_true _ _ ▸ h).1
  have := List.all_eq_true.mp h' id hid
  rw [hc] at this
  simpa using this

theorem Sandbox.parentChildOk_child {sb : Sandbox} (h : sb.parentChildOk = true) :
    ∀ id c, sb.components.get id = some c → ∀ ch ∈ c.children,
      ∀ cc, sb.components.get ch = some cc → cc.parent = some id := by
  intro id c hc ch hch cc hcc
  have h2 : (sb.components.iter.all fun ic =>
      (ic.2.children.all fun ch =>
        match sb.components.get ch with
        | some cc => cc.parent = some ic.1
        | none => false) &&
      (match ic.2.parent with
       | some pid =>
          match sb.components.get pid with
          | some pc => decide (ic.1 ∈ pc.children)
          | none => false
       | none => true)) = true := by
    unfold Sandbox.parentChildOk at h
    exact (Bool.and_eq_true_eq_eq_true_and_eq_true _ _ ▸ h).2
  have hic := List.all_eq_true.mp h2 (id, c) (ObjectStore.get_mem_iter hc)
  have := List.all_eq_true.mp (Bool.and_eq_true_eq_eq_true_and_eq_true _ _ ▸ hic).1 ch hch
  rw [hcc] at this
  simpa using this

/-- Invariant of the pre-order serialization loop: addresses are handed out
sequentially from 1, every map value is a previously issued address, and the
parent of every emitted component is an address issued strictly before the
component's own. -/
theorem serializeLoop_invariant (sb : Sandbox) (hcons : sb.parentChildOk = true) :
    ∀ (fuel : Nat) (stack : List Nat) (st : SerState) (acc : List ComponentS)
      (out : List ComponentS) (stf : SerState),
      serializeLoop sb fuel stack st acc = some (out, stf) →
      (∀ kv ∈ st.component_id_map, 0 < kv.2 ∧ kv.2 < st.next_component_id) →
      st.next_component_id = acc.length + 1 →
      (∀ id ∈ stack, ∀ c, sb.components.get id = some c →
        ∀ pid, c.parent = some pid → pid ≠ id ∧ st.findAddr pid ≠ none) →
      (∀ (k : Nat) (c : ComponentS), acc[k]? = some c → c.address = k + 1) →
      (∀ (k : Nat) (c : ComponentS), acc[k]? = some c → c.parent ≠ 0 → c.parent < c.address) →
      (∀ (k : Nat) (c : ComponentS), out[k]? = some c → c.address = k + 1) ∧
      (∀ (k : Nat) (c : ComponentS), out[k]? = some c → c.parent ≠ 0 → c.parent < c.address) := by
  intro fuel
  induction fuel with
  | zero =>
    intro stack st acc out stf h hmap hnext hstack haddr hparent
    cases stack with
    | nil =>
      unfold serializeLoop at h
      simp only [Option.some.injEq, Prod.mk.injEq] at h
      obtain ⟨rfl, _⟩ := h
      exact ⟨haddr, hparent⟩
    | cons id rest => exact absurd h (by unfold serializeLoop; simp)
  | succ fuel ih =>
    intro stack st acc out stf h hmap hnext hstack haddr hparent
    cases stack with
    | nil =>
      unfold serializeLoop at h
      simp only [Option.some.injEq, Prod.mk.injEq] at h
      obtain ⟨rfl, _⟩ := h
      exact ⟨haddr, hparent⟩
    | cons id rest =>
      unfold serializeLoop at h
      simp only [bind, Option.bind_eq_some] at h
      obtain ⟨comp, hcomp, h⟩ := h
      obtain ⟨⟨c, st'⟩, hser, h⟩ := h
      unfold serializeComponent at hser
      have hpar := hstack id (List.mem_cons_self _ _) comp hcomp
      have hkey : st' = (st.register id).2 ∧ c.address = st.next_component_id ∧
          (c.parent = 0 ∨ (0 < c.parent ∧ c.parent < st.next_component_id)) := by
        cases hcp : comp.parent with
        | none =>
          rw [hcp] at hser
          simp only [bind, Option.some_bind, Option.bind_eq_some] at hser
          obtain ⟨ivs, _, hser⟩ := hser
          obtain ⟨ovs, _, hser⟩ := hser
          simp only [Option.some.injEq, Prod.mk.injEq] at hser
          obtain ⟨hc, hst'⟩ := hser
          subst hst'
          subst hc
          exact ⟨rfl, rfl, Or.inl rfl⟩
        | some pid =>
          rw [hcp] at hser
          simp only [bind, Option.bind_eq_some] at hser
          obtain ⟨pv, hpv, hser⟩ := hser
          obtain ⟨ivs, _, hser⟩ := hser
          obtain ⟨ovs, _, hser⟩ := hser
          simp only [Option.some.injEq, Prod.mk.injEq] at hser
          obtain ⟨hc, hst'⟩ := hser
          subst hst'
          obtain ⟨hne, _⟩ := hpar pid hcp
          have hlk : st.findAddr pid = some pv := by
            unfold SerState.findAddr at hpv ⊢
            unfold SerState.register at hpv
            simp only at hpv
            rw [List.lookup] at hpv
            split at hpv
            next heq => exact absurd (by simpa using heq) hne
            next => exact hpv
          have hb := hmap (pid, pv) (lookup_mem hlk)
          subst hc
          exact ⟨rfl, rfl, Or.inr hb⟩
      obtain ⟨hst', haddrc, hpvfacts⟩ := hkey
      subst hst'
      refine ih _ _ _ _ _ h ?_ ?_ ?_ ?_ ?_
      · -- map invariant for st.register
        intro kv hkv
        unfold SerState.register at hkv
        simp only at hkv
        rcases List.mem_cons.mp hkv with rfl | hkv
        · refine ⟨by omega, by simp [SerState.register]⟩
        · obtain ⟨h0, hlt⟩ := hmap kv hkv
          refine ⟨h0, ?_⟩
          show kv.2 < st.next_component_id + 1
          omega
      · show st.next_component_id + 1 = (acc ++ [c]).length + 1
        simp [hnext]
      · -- stack invariant for children.reverse ++ rest
        intro id2 hid2 c2 hc2 pid2 hp2
        rcases List.mem_append.mp hid2 with hid2 | hid2
        · have hch : id2 ∈ comp.children := List.mem_reverse.mp hid2
          have hcp2 := Sandbox.parentChildOk_child hcons id comp hcomp id2 hch c2 hc2
          rw [hp2] at hcp2
          injection hcp2 with hpid2
          subst hpid2
          constructor
          · intro heq
            rw [← heq, hcomp] at hc2
            injection hc2 with hcc
            rw [← hcc] at hp2
            exact (hpar _ hp2).1 rfl
          · unfold SerState.findAddr SerState.register
            simp only
            rw [lookup_cons_self]
            simp
        · obtain ⟨hne2, hsome2⟩ := hstack id2 (List.mem_cons_of_mem _ hid2) c2 hc2 pid2 hp2
          refine ⟨hne2, ?_⟩
          unfold SerState.findAddr SerState.register
          simp only
          exact lookup_cons_isSome hsome2
      · -- addresses stay sequential
        intro k c0 hk
        by_cases hlt : k < acc.length
        · rw [List.getElem?_append_left hlt] at hk
          exact haddr k c0 hk
        · have hkl : k < acc.length + 1 := by
            have := lt_length_of_getElem hk
            simpa using this
          have hke : k = acc.length := by omega
          subst hke
          rw [List.getElem?_concat_length] at hk
          injection hk with hk
          subst hk
          show c.address = acc.length + 1
          omega
      · -- parents point strictly below the component's own address
        intro k c0 hk hne0
        by_cases hlt : k < acc.length
        · rw [List.getElem?_append_left hlt] at hk
          exact hparent k c0 hk hne0
        · have hkl : k < acc.length + 1 := by
            have := lt_length_of_getElem hk
            simpa using this
          have hke : k = acc.length := by omega
          subst hke
          rw [List.getElem?_concat_length] at hk
          injection hk with hk
          subst hk
          rcases hpvfacts with h0 | ⟨h0, hlt'⟩
          · exact absurd h0 (by simpa using hne0)
          · show c.parent < c.address
            omega

/-- Claim C7: for a sandbox with consistent parent/children cross-references,
the file produced by the serializer (a depth-first pre-order traversal from
the root set) gives the k-th listed component the nonzero address `k + 1`,
and every nonzero `parent` field equals the address of a component that
appears strictly earlier in the sequence. -/
theorem c7_serialize_preorder_parent_before_child :
    ∀ (sb : Sandbox) (f : BlotterFileS),
      sb.parentChildOk = true →
      blotterFileFromSandbox sb = some f →
      (∀ (k : Nat) (c : ComponentS), f.components[k]? = some c → c.address = k + 1) ∧
      (∀ (k : Nat) (c : ComponentS), f.components[k]? = some c → c.parent ≠ 0 →
        ∃ j c', j < k ∧ f.components[j]? = some c' ∧ c'.address = c.parent) := by
  intro sb f hcons h
  unfold blotterFileFromSandbox at h
  simp only [bind, Option.bind_eq_some] at h
  obtain ⟨⟨components, st⟩, hloop, h⟩ := h
  obtain ⟨wires, _, h⟩ := h
  have hf : f.components = components := by
    simp only [Option.some.injEq] at h
    rw [← h]
  obtain ⟨haddr, hparent⟩ := serializeLoop_invariant sb hcons _ _ _ _ _ _ hloop
    (by simp [SerState.new]) (by simp [SerState.new])
    (by
      intro id hid c hc pid hp
      have hroot := Sandbox.parentChildOk_root hcons id (List.mem_reverse.mp hid) c hc
      rw [hroot] at hp
      exact absurd hp (by simp))
    (by simp) (by simp)
  rw [hf]
  refine ⟨haddr, ?_⟩
  intro k c hk hne0
  have ha := haddr k c hk
  have hp := hparent k c hk hne0
  have h1 : 1 ≤ c.parent := by omega
  have hjk : c.parent - 1 < k := by omega
  have hklen : k < components.length := lt_length_of_getElem hk
  have hjlen : c.parent - 1 < components.length := by omega
  refine ⟨c.parent - 1, components.get ⟨c.parent - 1, hjlen⟩, hjk,
    List.getElem?_eq_getElem hjlen, ?_⟩
  have := haddr (c.parent - 1) (components.get ⟨c.parent - 1, hjlen⟩)
    (List.getElem?_eq_getElem hjlen)
  omega

/-- Concrete two-component sandbox: the board (id 0, a root) with the peg
component (id 1) as its child. -/
def c7Start : Sandbox :=
  match c10Start.addComponent c10Builder with
  | some p => p.2
  | none => c10Start

/-- The file serialized from `c7Start`. -/
def c7File : BlotterFileS :=
  match blotterFileFromSandbox c7Start with
  | some f => f
  | none =>
      { game_version := (0, 0, 0, 0), save_type := SaveTypeS.world, mods := [],
        component_types := [], components := [], wires := [],
        circuit_states := CircuitStatesS.world [] }

/-- The child component record as serialized into `c7File` (second in
pre-order, address 2, parent address 1). -/
def c7Child : ComponentS :=
  { address := 2, parent := 1, type_id := 11, position := (0, 0, 0),
    rotation := (0, 0, 0, 0x3F800000), inputs := [0], outputs := [],
    custom_data := none }

/-- Instance of claim C7: in the file serialized from the concrete
parent/child sandbox, the child at index 1 has a nonzero parent address that
belongs to a strictly earlier component. -/
theorem c7_serialize_preorder_witness :
    ∃ j c', j < 1 ∧ c7File.components[j]? = some c' ∧ c'.address = 1 := by
  have h := c7_serialize_preorder_parent_before_child c7Start c7File rfl rfl
  have h2 := h.2 1 c7Child (by rfl) (by decide)
  simpa [c7Child] using h2

/-- A concrete subassembly-format file: empty except for the save type and
circuit-state variant. -/
def c9File : BlotterFileS :=
  { game_version := (0, 91, 0, 510), save_type := SaveTypeS.subassembly, mods := [],
    component_types := [], components := [], wires := [],
    circuit_states := CircuitStatesS.subassembly [] }

/-- Claim C9, counterexample: converting a `SubassemblyFormat` file does not
succeed — the conversion hits `panic!("unsupported circuit state format")`
(`none` in the model) even for a minimal subassembly file. -/
theorem c9_subassembly_conversion_panics : sandboxFromBlotterFile c9File = none := rfl

/-- Claim C9, amended: converting any `BlotterFile` whose `circuit_states` is
`SubassemblyFormat` into a `Sandbox` panics ("unsupported circuit state
format"); nets are never created on demand.  Only `WorldFormat` files are
convertible. -/
theorem c9_subassembly_conversion_always_panics :
    ∀ (file : BlotterFileS) (on_states : List Nat),
      file.circuit_states = CircuitStatesS.subassembly on_states →
      sandboxFromBlotterFile file = none := by
  intro file on_states h
  unfold sandboxFromBlotterFile
  rw [h]

/-- Instance of the amended claim C9 at a concrete non-empty subassembly
file. -/
theorem c9_subassembly_conversion_witness :
    sandboxFromBlotterFile { c9File with circuit_states := CircuitStatesS.subassembly [0] } =
      none :=
  c9_subassembly_conversion_always_panics _ [0] rfl

/-! ## Byte-level codec (src/io.rs, src/v5.rs, src/v6.rs)

A byte stream is a `List Nat` with every element below 256.  A reader takes
the stream and returns the parsed value and the remaining stream, or `none`
for any error (the model does not distinguish `IoError` from `InvalidSave`).
A writer produces the emitted bytes, or `none` for `InvalidSave` (an
out-of-range `usize -> i32` length or a save-type/circuit-states mismatch).

The v5 and v6 bodies are byte-identical (v5 encodes `position` as `f32[3]`
and v6 as `i32[3]`, both three 4-byte little-endian patterns, which this
model carries as raw `Nat` patterns), so a single body reader/writer is
instantiated for both versions; only the save-version byte differs. -/

def ByteOk (bs : List Nat) : Prop := ∀ b ∈ bs, b < 256

/-- `read_u8`. -/
def rdU8 : List Nat → Option (Nat × List Nat)
  | [] => none
  | b :: rest => some (b, rest)

/-- `read_bytevec` (`read_exact` into a buffer of the given length). -/
def rdBytes : Nat → List Nat → Option (List Nat × List Nat)
  | 0, bs => some ([], bs)
  | _ + 1, [] => none
  | n + 1, b :: rest => (rdBytes n rest).map fun p => (b :: p.1, p.2)

/-- `read_u16` (little endian). -/
def rdU16 (bs : List Nat) : Option (Nat × List Nat) := do
  let (b0, bs) ← rdU8 bs
  let (b1, bs) ← rdU8 bs
  some (b0 + 256 * b1, bs)

/-- `read_u32` / `read_i32` / `read_f32` (little endian; the value is the raw
bit pattern, below 2^32 on a valid byte stream). -/
def rdU32 (bs : List Nat) : Option (Nat × List Nat) := do
  let (b0, bs) ← rdU8 bs
  let (b1, bs) ← rdU8 bs
  let (b2, bs) ← rdU8 bs
  let (b3, bs) ← rdU8 bs
  some (b0 + 256 * b1 + 65536 * b2 + 16777216 * b3, bs)

/-- `read_usize`: an `i32`, failing when negative (pattern at or above
2^31). -/
def rdUsize (bs : List Nat) : Option (Nat × List Nat) := do
  let (v, bs) ← rdU32 bs
  if v < 2 ^ 31 then some (v, bs) else none

/-- `read_magic`: 16 bytes that must equal the literal. -/
def rdMagic (lit : List Nat) (bs : List Nat) : Option (Unit × List Nat) := do
  let (header, bs) ← rdBytes 16 bs
  if header = lit then some ((), bs) else none

/-- A continuation byte `0x80..0xBF`. -/
def utf8Cont (c : Nat) : Bool := 0x80 ≤ c && c ≤ 0xBF

/-- Strict UTF-8 validity as checked by `String::from_utf8` (RFC 3629:
no overlong forms, no surrogates, nothing above U+10FFFF). -/
def validUtf8 : List Nat → Bool
  | [] => true
  | b :: rest =>
    if b < 0x80 then validUtf8 rest
    else if 0xC2 ≤ b && b ≤ 0xDF then
      match rest with
      | c1 :: r => utf8Cont c1 && validUtf8 r
      | [] => false
    else if b = 0xE0 then
      match rest with
      | c1 :: c2 :: r => (0xA0 ≤ c1 && c1 ≤ 0xBF) && utf8Cont c2 && validUtf8 r
      | _ => false
    else if (0xE1 ≤ b && b ≤ 0xEC) || b = 0xEE || b = 0xEF then
      match rest with
      | c1 :: c2 :: r => utf8Cont c1 && utf8Cont c2 && validUtf8 r
      | _ => false
    else if b = 0xED then
      match rest with
      | c1 :: c2 :: r => (0x80 ≤ c1 && c1 ≤ 0x9F) && utf8Cont c2 && validUtf8 r
      | _ => false
    else if b = 0xF0 then
      match rest with
      | c1 :: c2 :: c3 :: r =>
          (0x90 ≤ c1 && c1 ≤ 0xBF) && utf8Cont c2 && utf8Cont c3 && validUtf8 r
      | _ => false
    else if 0xF1 ≤ b && b ≤ 0xF3 then
      match rest with
      | c1 :: c2 :: c3 :: r => utf8Cont c1 && utf8Cont c2 && utf8Cont c3 && validUtf8 r
      | _ => false
    else if b = 0xF4 then
      match rest with
      | c1 :: c2 :: c3 :: r =>
          (0x80 ≤ c1 && c1 ≤ 0x8F) && utf8Cont c2 && utf8Cont c3 && validUtf8 r
      | _ => false
    else false
termination_by l => l.length
decreasing_by all_goals (simp <;> omega)

/-- `read_string`: a length-prefixed byte sequence that must be valid UTF-8
(the `String` is carried as its byte sequence; `String::from_utf8` keeps the
bytes unchanged and `write_str` emits them back verbatim). -/
def rdString (bs : List Nat) : Option (List Nat × List Nat) := do
  let (len, bs) ← rdUsize bs
  let (sb, bs) ← rdBytes len bs
  if validUtf8 sb then some (sb, bs) else none

/-- `read_version` (`[i32; 4]`). -/
def rdVersion (bs : List Nat) : Option ((Nat × Nat × Nat × Nat) × List Nat) := do
  let (a, bs) ← rdU32 bs
  let (b, bs) ← rdU32 bs
  let (c, bs) ← rdU32 bs
  let (d, bs) ← rdU32 bs
  some ((a, b, c, d), bs)

/-- `read_vec`: a fixed number of items. -/
def rdVec {α : Type} (item : List Nat → Option (α × List Nat)) :
    Nat → List Nat → Option (List α × List Nat)
  | 0, bs => some ([], bs)
  | n + 1, bs => do
      let (x, bs) ← item bs
      let (xs, bs) ← rdVec item n bs
      some (x :: xs, bs)

/-! Codec-level record types (fields that the codec never interprets are raw
bit patterns). -/

structure ModInfoF where
  mod_id : List Nat
  mod_version : Nat × Nat × Nat × Nat
deriving DecidableEq, Repr

structure ComponentTypeF where
  numeric_id : Nat
  text_id : List Nat
deriving DecidableEq, Repr

structure ComponentF where
  address : Nat
  parent : Nat
  type_id : Nat
  position : Nat × Nat × Nat
  rotation : Nat × Nat × Nat × Nat
  inputs : List Nat
  outputs : List Nat
  custom_data : Option (List Nat)
deriving DecidableEq, Repr

structure PegAddressF where
  is_input : Bool
  component_address : Nat
  peg_index : Nat
deriving DecidableEq, Repr

structure WireF where
  start_peg : PegAddressF
  end_peg : PegAddressF
  circuit_state_id : Nat
  rotation : Nat
deriving DecidableEq, Repr

inductive SaveTypeF where
  | world
  | subassembly
deriving DecidableEq, Repr

inductive CircuitStatesF where
  | world (circuit_states : List Nat)
  | subassembly (on_states : List Nat)
deriving DecidableEq, Repr

structure BlotterFileF where
  game_version : Nat × Nat × Nat × Nat
  save_type : SaveTypeF
  mods : List ModInfoF
  component_types : List ComponentTypeF
  components : List ComponentF
  wires : List WireF
  circuit_states : CircuitStatesF
deriving DecidableEq, Repr

/-- The mod-info record: `string mod_id; i32[4] mod_version`. -/
def rdModInfo (bs : List Nat) : Option (ModInfoF × List Nat) := do
  let (mid, bs) ← rdString bs
  let (mv, bs) ← rdVersion bs
  some ({ mod_id := mid, mod_version := mv }, bs)

/-- The component-type record: `u16 numeric_id; string text_id`. -/
def rdComponentType (bs : List Nat) : Option (ComponentTypeF × List Nat) := do
  let (nid, bs) ← rdU16 bs
  let (tid, bs) ← rdString bs
  some ({ numeric_id := nid, text_id := tid }, bs)

/-- The fixed-layout head of the component record, shared by the plain and
the strict reader: address, parent, type id, the three position patterns,
the four rotation patterns, the input and output circuit-state-id lists, and
the raw `custom_data_len` pattern. -/
def rdComponentHead (bs : List Nat) :
    Option ((Nat × Nat × Nat × (Nat × Nat × Nat) × (Nat × Nat × Nat × Nat) ×
      List Nat × List Nat × Nat) × List Nat) := do
  let (address, bs) ← rdU32 bs
  let (parent, bs) ← rdU32 bs
  let (type_id, bs) ← rdU16 bs
  let (p0, bs) ← rdU32 bs
  let (p1, bs) ← rdU32 bs
  let (p2, bs) ← rdU32 bs
  let (rot, bs) ← rdVersion bs
  let (nin, bs) ← rdUsize bs
  let (inputs, bs) ← rdVec rdU32 nin bs
  let (nout, bs) ← rdUsize bs
  let (outputs, bs) ← rdVec rdU32 nout bs
  let (cdl, bs) ← rdU32 bs
  some ((address, parent, type_id, (p0, p1, p2), rot, inputs, outputs, cdl), bs)

/-- The custom-data tail: a non-negative length (pattern below 2^31) is
followed by that many raw bytes; a negative length means "no custom
data". -/
def rdCustomData (cdl : Nat) (bs : List Nat) : Option (Option (List Nat) × List Nat) :=
  if cdl < 2 ^ 31 then (rdBytes cdl bs).map fun p => (some p.1, p.2)
  else some (none, bs)

/-- The strict custom-data tail of the claim's well-formedness: "no custom
data" must be encoded as exactly `-1` (pattern `2^32 - 1`); any other
negative length is rejected.  This is the only point where the strict reader
differs from the plain one. -/
def rdCustomDataC (cdl : Nat) (bs : List Nat) : Option (Option (List Nat) × List Nat) :=
  if cdl < 2 ^ 31 then (rdBytes cdl bs).map fun p => (some p.1, p.2)
  else if cdl = 2 ^ 32 - 1 then some (none, bs)
  else none

/-- The component record. -/
def rdComponent (bs : List Nat) : Option (ComponentF × List Nat) := do
  let ((address, parent, type_id, position, rotation, inputs, outputs, cdl), bs) ←
    rdComponentHead bs
  let (custom_data, bs) ← rdCustomData cdl bs
  some ({ address, parent, type_id, position, rotation, inputs, outputs, custom_data }, bs)

/-- The strict component record (see `rdCustomDataC`). -/
def rdComponentC (bs : List Nat) : Option (ComponentF × List Nat) := do
  let ((address, parent, type_id, position, rotation, inputs, outputs, cdl), bs) ←
    rdComponentHead bs
  let (custom_data, bs) ← rdCustomDataC cdl bs
  some ({ address, parent, type_id, position, rotation, inputs, outputs, custom_data }, bs)

/-- `PegType::read_from`: byte 0 is an output peg, byte 1 an input peg,
anything else is invalid. -/
def pegKind : Nat → Option Bool
  | 0 => some false
  | 1 => some true
  | _ => none

/-- The peg-address record: `u8 peg_type; u32 component_address;
i32 peg_index`. -/
def rdPegAddressF (bs : List Nat) : Option (PegAddressF × List Nat) := do
  let (kind, bs) ← rdU8 bs
  let is_input ← pegKind kind
  let (caddr, bs) ← rdU32 bs
  let (pidx, bs) ← rdU32 bs
  some ({ is_input, component_address := caddr, peg_index := pidx }, bs)

/-- The wire record. -/
def rdWire (bs : List Nat) : Option (WireF × List Nat) := do
  let (sp, bs) ← rdPegAddressF bs
  let (ep, bs) ← rdPegAddressF bs
  let (cs, bs) ← rdU32 bs
  let (rot, bs) ← rdU32 bs
  some ({ start_peg := sp, end_peg := ep, circuit_state_id := cs, rotation := rot }, bs)

/-- The circuit-states block, whose shape is selected by the save type. -/
def rdCircuitStates (st : SaveTypeF) (bs : List Nat) :
    Option (CircuitStatesF × List Nat) :=
  match st with
  | SaveTypeF.world => do
      let (n, bs) ← rdUsize bs
      let (bytes, bs) ← rdBytes n bs
      some (CircuitStatesF.world bytes, bs)
  | SaveTypeF.subassembly => do
      let (n, bs) ← rdUsize bs
      let (ons, bs) ← rdVec rdU32 n bs
      some (CircuitStatesF.subassembly ons, bs)

def magicHeader : List Nat :=
  [76, 111, 103, 105, 99, 32, 87, 111, 114, 108, 100, 32, 115, 97, 118, 101]

def magicFooter : List Nat :=
  [114, 101, 100, 115, 116, 111, 110, 101, 32, 115, 117, 120, 32, 108, 111, 108]

/-- The leading fields of the file body, up to and including the
component-type table (everything before the first item whose reader depends
on a parameter: the component list).  Split out of `rdFileBody` so that the
two component-reader instantiations share it. -/
structure FilePre where
  game_version : Nat × Nat × Nat × Nat
  save_type : SaveTypeF
  ncomp : Nat
  nwires : Nat
  mods : List ModInfoF
  component_types : List ComponentTypeF
deriving DecidableEq, Repr

/-- `SaveType::read_from`: byte 1 is World, byte 2 is Subassembly, anything
else is invalid; `SaveType::write_to` emits the same byte back. -/
def saveTypeOfByte : Nat → Option SaveTypeF
  | 1 => some SaveTypeF.world
  | 2 => some SaveTypeF.subassembly
  | _ => none

def saveTypeByte : SaveTypeF → Nat
  | SaveTypeF.world => 1
  | SaveTypeF.subassembly => 2

def rdFileBodyPre (bs : List Nat) : Option (FilePre × List Nat) := do
  let (gv, bs) ← rdVersion bs
  let (stb, bs) ← rdU8 bs
  let st ← saveTypeOfByte stb
  let (ncomp, bs) ← rdUsize bs
  let (nwires, bs) ← rdUsize bs
  let (nmods, bs) ← rdUsize bs
  let (mods, bs) ← rdVec rdModInfo nmods bs
  let (nct, bs) ← rdUsize bs
  let (cts, bs) ← rdVec rdComponentType nct bs
  some ({ game_version := gv, save_type := st, ncomp, nwires, mods, component_types := cts }, bs)

/-- `read_after_save_version`, common to v5 and v6: game version, save type
byte (1 = World, 2 = Subassembly), the component and wire counts, mods,
component types, components, wires, circuit states, footer.  The component
reader is a parameter so that the strict variant shares the definition. -/
def rdFileBody (comp : List Nat → Option (ComponentF × List Nat)) (bs : List Nat) :
    Option (BlotterFileF × List Nat) := do
  let (pre, bs) ← rdFileBodyPre bs
  let (components, bs) ← rdVec comp pre.ncomp bs
  let (wires, bs) ← rdVec rdWire pre.nwires bs
  let (cstates, bs) ← rdCircuitStates pre.save_type bs
  let (_, bs) ← rdMagic magicFooter bs
  some ({ game_version := pre.game_version, save_type := pre.save_type,
          mods := pre.mods, component_types := pre.component_types,
          components := components, wires := wires, circuit_states := cstates }, bs)

/-- `BlotterFile::read` for a given save version byte (5 or 6): header magic,
version byte (anything else is `IncompatibleVersion`), then the body. -/
def readFile (version : Nat) (bs : List Nat) : Option (BlotterFileF × List Nat) := do
  let (_, bs) ← rdMagic magicHeader bs
  let (v, bs) ← rdU8 bs
  if v = version then rdFileBody rdComponent bs else none

/-- The strict reader of the claim's well-formedness (custom-data "none"
encoded as exactly `-1`). -/
def readFileC (version : Nat) (bs : List Nat) : Option (BlotterFileF × List Nat) := do
  let (_, bs) ← rdMagic magicHeader bs
  let (v, bs) ← rdU8 bs
  if v = version then rdFileBody rdComponentC bs else none

/-! Writers. -/

def wrU8 (v : Nat) : List Nat := [v % 256]

def wrU16 (v : Nat) : List Nat := [v % 256, v / 256 % 256]

def wrU32 (v : Nat) : List Nat :=
  [v % 256, v / 256 % 256, v / 65536 % 256, v / 16777216 % 256]

/-- `write_usize`: fails (`InvalidSave`) when the value exceeds `i32::MAX`. -/
def wrUsize (v : Nat) : Option (List Nat) :=
  if v < 2 ^ 31 then some (wrU32 v) else none

/-- `write_str` (the string's bytes after its `i32` length). -/
def wrStr (s : List Nat) : Option (List Nat) :=
  (wrUsize s.length).map (· ++ s)

def wrVersion (v : Nat × Nat × Nat × Nat) : List Nat :=
  wrU32 v.1 ++ wrU32 v.2.1 ++ wrU32 v.2.2.1 ++ wrU32 v.2.2.2

def wrModInfo (m : ModInfoF) : Option (List Nat) :=
  (wrStr m.mod_id).map (· ++ wrVersion m.mod_version)

def wrComponentType (ct : ComponentTypeF) : Option (List Nat) :=
  (wrStr ct.text_id).map (wrU16 ct.numeric_id ++ ·)

/-- The component writer; `None` custom data is the literal `i32 -1`
(pattern `2^32 - 1`). -/
def wrComponent (c : ComponentF) : Option (List Nat) := do
  let nin ← wrUsize c.inputs.length
  let nout ← wrUsize c.outputs.length
  let custom ←
    match c.custom_data with
    | some data => (wrUsize data.length).map (· ++ data)
    | none => some (wrU32 (2 ^ 32 - 1))
  some (wrU32 c.address ++ wrU32 c.parent ++ wrU16 c.type_id ++
    wrU32 c.position.1 ++ wrU32 c.position.2.1 ++ wrU32 c.position.2.2 ++
    wrVersion c.rotation ++
    nin ++ (c.inputs.map wrU32).flatten ++
    nout ++ (c.outputs.map wrU32).flatten ++ custom)

def wrPegAddressF (p : PegAddressF) : List Nat :=
  wrU8 (if p.is_input then 1 else 0) ++ wrU32 p.component_address ++ wrU32 p.peg_index

def wrWire (w : WireF) : List Nat :=
  wrPegAddressF w.start_peg ++ wrPegAddressF w.end_peg ++
    wrU32 w.circuit_state_id ++ wrU32 w.rotation

/-- The circuit-states writer; a `save_type` / variant mismatch is
`InvalidSave`. -/
def wrCircuitStates (st : SaveTypeF) (cs : CircuitStatesF) : Option (List Nat) :=
  match st, cs with
  | SaveTypeF.world, CircuitStatesF.world bytes =>
      (wrUsize bytes.length).map (· ++ bytes)
  | SaveTypeF.subassembly, CircuitStatesF.subassembly ons =>
      (wrUsize ons.length).map (· ++ (ons.map wrU32).flatten)
  | _, _ => none

/-- `mapM`-style concatenation of fallible per-item writers. -/
def wrList {α : Type} (item : α → Option (List Nat)) : List α → Option (List Nat)
  | [] => some []
  | x :: xs => do
      let hd ← item x
      let tl ← wrList item xs
      some (hd ++ tl)

/-- `BlotterFile::write` for a given save version byte: header, version,
game version, save type, the two counts, mods, component types, components,
wires, circuit states, footer. -/
def writeFile (version : Nat) (f : BlotterFileF) : Option (List Nat) := do
  let mods ← wrList wrModInfo f.mods
  let cts ← wrList wrComponentType f.component_types
  let comps ← wrList wrComponent f.components
  let ncomp ← wrUsize f.components.length
  let nwires ← wrUsize f.wires.length
  let nmods ← wrUsize f.mods.length
  let nct ← wrUsize f.component_types.length
  let cstates ← wrCircuitStates f.save_type f.circuit_states
  some (magicHeader ++ wrU8 version ++ wrVersion f.game_version ++
    wrU8 (saveTypeByte f.save_type) ++
    ncomp ++ nwires ++ nmods ++ mods ++ nct ++ cts ++ comps ++
    (f.wires.map wrWire).flatten ++ cstates ++ magicFooter)

/-! ### Round-trip lemmas: reading a record and re-writing the parsed value
reproduces exactly the bytes consumed. -/

theorem byteOk_append {a b : List Nat} (h : ByteOk (a ++ b)) : ByteOk a ∧ ByteOk b :=
  ⟨fun x hx => h x (List.mem_append.mpr (Or.inl hx)),
   fun x hx => h x (List.mem_append.mpr (Or.inr hx))⟩

theorem byteOk_cons {b : Nat} {bs : List Nat} (h : ByteOk (b :: bs)) :
    b < 256 ∧ ByteOk bs :=
  ⟨h b (List.mem_cons_self b bs), fun x hx => h x (List.mem_cons_of_mem b hx)⟩

theorem rdU8_spec {bs : List Nat} {v : Nat} {rest : List Nat}
    (hok : ByteOk bs) (h : rdU8 bs = some (v, rest)) :
    v < 256 ∧ bs = wrU8 v ++ rest ∧ ByteOk rest := by
  match bs with
  | [] => simp [rdU8] at h
  | b :: r =>
    simp only [rdU8, Option.some.injEq, Prod.mk.injEq] at h
    obtain ⟨hb, hrok⟩ := byteOk_cons hok
    obtain ⟨hv, hr⟩ := h
    subst hv; subst hr
    exact ⟨hb, by simp [wrU8, Nat.mod_eq_of_lt hb], hrok⟩

theorem rdBytes_spec : ∀ {n : Nat} {bs sb rest : List Nat},
    rdBytes n bs = some (sb, rest) → bs = sb ++ rest ∧ sb.length = n := by
  intro n
  induction n with
  | zero =>
    intro bs sb rest h
    simp only [rdBytes, Option.some.injEq, Prod.mk.injEq] at h
    obtain ⟨h1, h2⟩ := h
    subst h1; subst h2; simp
  | succ m ih =>
    intro bs sb rest h
    match bs with
    | [] => simp [rdBytes] at h
    | b :: r =>
      simp only [rdBytes] at h
      obtain ⟨⟨sb', rest'⟩, hp, heq⟩ := Option.map_eq_some'.mp h
      obtain ⟨hr, hlen⟩ := ih hp
      rw [Prod.mk.injEq] at heq
      obtain ⟨h1, h2⟩ := heq
      subst h1; subst h2; subst hr
      exact ⟨by simp, by simp [hlen]⟩

theorem rdU16_spec {bs : List Nat} {v : Nat} {rest : List Nat}
    (hok : ByteOk bs) (h : rdU16 bs = some (v, rest)) :
    v < 2 ^ 16 ∧ bs = wrU16 v ++ rest ∧ ByteOk rest := by
  unfold rdU16 at h
  obtain ⟨⟨b0, bs1⟩, h0, h⟩ := Option.bind_eq_some.mp h
  obtain ⟨⟨b1, bs2⟩, h1, h⟩ := Option.bind_eq_some.mp h
  simp only [Option.some.injEq, Prod.mk.injEq] at h
  obtain ⟨hv, hr⟩ := h
  obtain ⟨hb0, he0, hok1⟩ := rdU8_spec hok h0
  obtain ⟨hb1, he1, hok2⟩ := rdU8_spec hok1 h1
  subst hv; subst hr
  refine ⟨by omega, ?_, hok2⟩
  rw [he0, he1]
  have e0 : (b0 + 256 * b1) % 256 = b0 := by omega
  have e1 : (b0 + 256 * b1) / 256 % 256 = b1 := by omega
  simp [wrU8, wrU16, Nat.mod_eq_of_lt, hb0, hb1, e0, e1]

theorem rdU32_spec {bs : List Nat} {v : Nat} {rest : List Nat}
    (hok : ByteOk bs) (h : rdU32 bs = some (v, rest)) :
    v < 2 ^ 32 ∧ bs = wrU32 v ++ rest ∧ ByteOk rest := by
  unfold rdU32 at h
  obtain ⟨⟨b0, bs1⟩, h0, h⟩ := Option.bind_eq_some.mp h
  obtain ⟨⟨b1, bs2⟩, h1, h⟩ := Option.bind_eq_some.mp h
  obtain ⟨⟨b2, bs3⟩, h2, h⟩ := Option.bind_eq_some.mp h
  obtain ⟨⟨b3, bs4⟩, h3, h⟩ := Option.bind_eq_some.mp h
  simp only [Option.some.injEq, Prod.mk.injEq] at h
  obtain ⟨hv, hr⟩ := h
  obtain ⟨hb0, he0, hok1⟩ := rdU8_spec hok h0
  obtain ⟨hb1, he1, hok2⟩ := rdU8_spec hok1 h1
  obtain ⟨hb2, he2, hok3⟩ := rdU8_spec hok2 h2
  obtain ⟨hb3, he3, hok4⟩ := rdU8_spec hok3 h3
  subst hv; subst hr
  refine ⟨by omega, ?_, hok4⟩
  rw [he0, he1, he2, he3]
  have e0 : (b0 + 256 * b1 + 65536 * b2 + 16777216 * b3) % 256 = b0 := by omega
  have e1 : (b0 + 256 * b1 + 65536 * b2 + 16777216 * b3) / 256 % 256 = b1 := by omega
  have e2 : (b0 + 256 * b1 + 65536 * b2 + 16777216 * b3) / 65536 % 256 = b2 := by omega
  have e3 : (b0 + 256 * b1 + 65536 * b2 + 16777216 * b3) / 16777216 % 256 = b3 := by omega
  simp [wrU8, wrU32, Nat.mod_eq_of_lt, hb0, hb1, hb2, hb3, e0, e1, e2, e3]

theorem rdUsize_spec {bs : List Nat} {v : Nat} {rest : List Nat}
    (hok : ByteOk bs) (h : rdUsize bs = some (v, rest)) :
    v < 2 ^ 31 ∧ wrUsize v = some (wrU32 v) ∧ bs = wrU32 v ++ rest ∧ ByteOk rest := by
  unfold rdUsize at h
  obtain ⟨⟨w, bs1⟩, h0, h⟩ := Option.bind_eq_some.mp h
  obtain ⟨hw, he, hok1⟩ := rdU32_spec hok h0
  change (if w < 2 ^ 31 then some (w, bs1) else none) = some (v, rest) at h
  split at h
  · simp only [Option.some.injEq, Prod.mk.injEq] at h
    obtain ⟨hv, hr⟩ := h
    subst hv; subst hr
    refine ⟨by omega, ?_, he, hok1⟩
    simp [wrUsize]
    omega
  · exact absurd h (by simp)

theorem rdVersion_spec {bs : List Nat} {v : Nat × Nat × Nat × Nat} {rest : List Nat}
    (hok : ByteOk bs) (h : rdVersion bs = some (v, rest)) :
    bs = wrVersion v ++ rest ∧ ByteOk rest := by
  unfold rdVersion at h
  obtain ⟨⟨a, bs1⟩, h0, h⟩ := Option.bind_eq_some.mp h
  obtain ⟨⟨b, bs2⟩, h1, h⟩ := Option.bind_eq_some.mp h
  obtain ⟨⟨c, bs3⟩, h2, h⟩ := Option.bind_eq_some.mp h
  obtain ⟨⟨d, bs4⟩, h3, h⟩ := Option.bind_eq_some.mp h
  simp only [Option.some.injEq, Prod.mk.injEq] at h
  obtain ⟨hv, hr⟩ := h
  obtain ⟨_, he0, hok1⟩ := rdU32_spec hok h0
  obtain ⟨_, he1, hok2⟩ := rdU32_spec hok1 h1
  obtain ⟨_, he2, hok3⟩ := rdU32_spec hok2 h2
  obtain ⟨_, he3, hok4⟩ := rdU32_spec hok3 h3
  subst hv; subst hr
  rw [he0, he1, he2, he3]
  exact ⟨by simp [wrVersion], hok4⟩

theorem rdMagic_spec {lit bs rest : List Nat} {u : Unit}
    (hok : ByteOk bs) (h : rdMagic lit bs = some (u, rest)) :
    bs = lit ++ rest ∧ ByteOk rest := by
  unfold rdMagic at h
  obtain ⟨⟨header, bs1⟩, h0, h⟩ := Option.bind_eq_some.mp h
  obtain ⟨he, _⟩ := rdBytes_spec h0
  change (if header = lit then some ((), bs1) else none) = some (u, rest) at h
  split at h
  · simp only [Option.some.injEq, Prod.mk.injEq] at h
    rename_i hlit
    obtain ⟨-, hr⟩ := h
    subst hlit; subst hr
    exact ⟨he, (byteOk_append (he ▸ hok)).2⟩
  · exact absurd h (by simp)

theorem rdString_spec {bs sb rest : List Nat}
    (hok : ByteOk bs) (h : rdString bs = some (sb, rest)) :
    ∃ w, wrStr sb = some w ∧ bs = w ++ rest ∧ ByteOk rest := by
  unfold rdString at h
  obtain ⟨⟨len, bs1⟩, h0, h⟩ := Option.bind_eq_some.mp h
  obtain ⟨⟨sb', bs2⟩, h1, h⟩ := Option.bind_eq_some.mp h
  obtain ⟨hlt, _, he0, hok1⟩ := rdUsize_spec hok h0
  obtain ⟨he1, hlen⟩ := rdBytes_spec h1
  change (if validUtf8 sb' = true then some (sb', bs2) else none) = some (sb, rest) at h
  split at h
  · simp only [Option.some.injEq, Prod.mk.injEq] at h
    obtain ⟨hv, hr⟩ := h
    subst hv; subst hr
    refine ⟨wrU32 len ++ sb', ?_, ?_, (byteOk_append (he1 ▸ hok1)).2⟩
    · simp [wrStr, wrUsize, hlen]
      omega
    · rw [he0, he1]; simp
  · exact absurd h (by simp)

theorem wrList_map_some {α : Type} (f : α → List Nat) :
    ∀ xs : List α, wrList (fun x => some (f x)) xs = some (xs.map f).flatten := by
  intro xs
  induction xs with
  | nil => rfl
  | cons x xs ih => simp [wrList, ih]

theorem rdVec_spec {α : Type} {item : List Nat → Option (α × List Nat)}
    {itemW : α → Option (List Nat)}
    (hitem : ∀ {bs : List Nat} {v : α} {rest : List Nat}, ByteOk bs →
      item bs = some (v, rest) → ∃ w, itemW v = some w ∧ bs = w ++ rest ∧ ByteOk rest) :
    ∀ {n : Nat} {bs : List Nat} {xs : List α} {rest : List Nat}, ByteOk bs →
      rdVec item n bs = some (xs, rest) →
      ∃ w, wrList itemW xs = some w ∧ bs = w ++ rest ∧ ByteOk rest ∧ xs.length = n := by
  intro n
  induction n with
  | zero =>
    intro bs xs rest hok h
    simp only [rdVec, Option.some.injEq, Prod.mk.injEq] at h
    obtain ⟨h1, h2⟩ := h
    subst h1; subst h2
    exact ⟨[], rfl, by simp, hok, rfl⟩
  | succ m ih =>
    intro bs xs rest hok h
    unfold rdVec at h
    obtain ⟨⟨x, bs1⟩, h0, h⟩ := Option.bind_eq_some.mp h
    obtain ⟨⟨xs', bs2⟩, h1, h⟩ := Option.bind_eq_some.mp h
    simp only [Option.some.injEq, Prod.mk.injEq] at h
    obtain ⟨hx, hr⟩ := h
    subst hx; subst hr
    obtain ⟨w0, hw0, he0, hok1⟩ := hitem hok h0
    obtain ⟨w1, hw1, he1, hok2, hlen⟩ := ih hok1 h1
    refine ⟨w0 ++ w1, ?_, ?_, hok2, by simp [hlen]⟩
    · simp [wrList, hw0, hw1]
    · rw [he0, he1]; simp

theorem rdVec_mono {α : Type} {item itemC : List Nat → Option (α × List Nat)}
    (hm : ∀ bs r, itemC bs = some r → item bs = some r) :
    ∀ n bs r, rdVec itemC n bs = some r → rdVec item n bs = some r := by
  intro n
  induction n with
  | zero => intro bs r h; exact h
  | succ m ih =>
    intro bs r h
    unfold rdVec at h ⊢
    obtain ⟨⟨x, bs1⟩, h0, h⟩ := Option.bind_eq_some.mp h
    obtain ⟨⟨xs, bs2⟩, h1, h⟩ := Option.bind_eq_some.mp h
    exact Option.bind_eq_some.mpr ⟨(x, bs1), hm bs (x, bs1) h0,
      Option.bind_eq_some.mpr ⟨(xs, bs2), ih bs1 (xs, bs2) h1, h⟩⟩

theorem rdU32_spec_w {bs : List Nat} {v : Nat} {rest : List Nat}
    (hok : ByteOk bs) (h : rdU32 bs = some (v, rest)) :
    ∃ w, (fun v => some (wrU32 v)) v = some w ∧ bs = w ++ rest ∧ ByteOk rest :=
  ⟨wrU32 v, rfl, (rdU32_spec hok h).2⟩

theorem rdModInfo_spec {bs rest : List Nat} {m : ModInfoF}
    (hok : ByteOk bs) (h : rdModInfo bs = some (m, rest)) :
    ∃ w, wrModInfo m = some w ∧ bs = w ++ rest ∧ ByteOk rest := by
  unfold rdModInfo at h
  obtain ⟨⟨mid, bs1⟩, h0, h⟩ := Option.bind_eq_some.mp h
  obtain ⟨⟨mv, bs2⟩, h1, h⟩ := Option.bind_eq_some.mp h
  simp only [Option.some.injEq, Prod.mk.injEq] at h
  obtain ⟨hm, hr⟩ := h
  subst hm; subst hr
  obtain ⟨w0, hw0, he0, hok1⟩ := rdString_spec hok h0
  obtain ⟨he1, hok2⟩ := rdVersion_spec hok1 h1
  refine ⟨w0 ++ wrVersion mv, ?_, ?_, hok2⟩
  · simp [wrModInfo, hw0]
  · rw [he0, he1]; simp

theorem rdComponentType_spec {bs rest : List Nat} {ct : ComponentTypeF}
    (hok : ByteOk bs) (h : rdComponentType bs = some (ct, rest)) :
    ∃ w, wrComponentType ct = some w ∧ bs = w ++ rest ∧ ByteOk rest := by
  unfold rdComponentType at h
  obtain ⟨⟨nid, bs1⟩, h0, h⟩ := Option.bind_eq_some.mp h
  obtain ⟨⟨tid, bs2⟩, h1, h⟩ := Option.bind_eq_some.mp h
  simp only [Option.some.injEq, Prod.mk.injEq] at h
  obtain ⟨hm, hr⟩ := h
  subst hm; subst hr
  obtain ⟨hnid, he0, hok1⟩ := rdU16_spec hok h0
  obtain ⟨w1, hw1, he1, hok2⟩ := rdString_spec hok1 h1
  refine ⟨wrU16 nid ++ w1, ?_, ?_, hok2⟩
  · simp [wrComponentType, hw1]
  · rw [he0, he1]; simp

theorem rdPegAddressF_spec {bs rest : List Nat} {p : PegAddressF}
    (hok : ByteOk bs) (h : rdPegAddressF bs = some (p, rest)) :
    bs = wrPegAddressF p ++ rest ∧ ByteOk rest := by
  unfold rdPegAddressF at h
  obtain ⟨⟨kind, bs1⟩, h0, h⟩ := Option.bind_eq_some.mp h
  obtain ⟨hk, he0, hok1⟩ := rdU8_spec hok h0
  obtain ⟨ii, h1, h⟩ := Option.bind_eq_some.mp h
  obtain ⟨⟨caddr, bs2⟩, h2, h⟩ := Option.bind_eq_some.mp h
  obtain ⟨⟨pidx, bs3⟩, h3, h⟩ := Option.bind_eq_some.mp h
  simp only [Option.some.injEq, Prod.mk.injEq] at h
  obtain ⟨hp, hr⟩ := h
  subst hp; subst hr
  obtain ⟨hca, he2, hok2⟩ := rdU32_spec hok1 h2
  obtain ⟨hpi, he3, hok3⟩ := rdU32_spec hok2 h3
  refine ⟨?_, hok3⟩
  rw [he0, he2, he3]
  unfold pegKind at h1
  split at h1
  · simp only [Option.some.injEq] at h1
    subst h1
    simp [wrPegAddressF, wrU8]
  · simp only [Option.some.injEq] at h1
    subst h1
    simp [wrPegAddressF, wrU8]
  · exact absurd h1 (by simp)

theorem rdWire_spec {bs rest : List Nat} {w : WireF}
    (hok : ByteOk bs) (h : rdWire bs = some (w, rest)) :
    bs = wrWire w ++ rest ∧ ByteOk rest := by
  unfold rdWire at h
  obtain ⟨⟨sp, bs1⟩, h0, h⟩ := Option.bind_eq_some.mp h
  obtain ⟨⟨ep, bs2⟩, h1, h⟩ := Option.bind_eq_some.mp h
  obtain ⟨⟨cs, bs3⟩, h2, h⟩ := Option.bind_eq_some.mp h
  obtain ⟨⟨rot, bs4⟩, h3, h⟩ := Option.bind_eq_some.mp h
  simp only [Option.some.injEq, Prod.mk.injEq] at h
  obtain ⟨hw, hr⟩ := h
  subst hw; subst hr
  obtain ⟨he0, hok1⟩ := rdPegAddressF_spec hok h0
  obtain ⟨he1, hok2⟩ := rdPegAddressF_spec hok1 h1
  obtain ⟨_, he2, hok3⟩ := rdU32_spec hok2 h2
  obtain ⟨_, he3, hok4⟩ := rdU32_spec hok3 h3
  refine ⟨?_, hok4⟩
  rw [he0, he1, he2, he3]
  simp [wrWire]

theorem rdWire_spec_w {bs rest : List Nat} {w : WireF}
    (hok : ByteOk bs) (h : rdWire bs = some (w, rest)) :
    ∃ wb, (fun w => some (wrWire w)) w = some wb ∧ bs = wb ++ rest ∧ ByteOk rest :=
  ⟨wrWire w, rfl, rdWire_spec hok h⟩

theorem rdCircuitStates_spec {st : SaveTypeF} {bs rest : List Nat} {cs : CircuitStatesF}
    (hok : ByteOk bs) (h : rdCircuitStates st bs = some (cs, rest)) :
    ∃ w, wrCircuitStates st cs = some w ∧ bs = w ++ rest ∧ ByteOk rest := by
  cases st
  case world =>
    unfold rdCircuitStates at h
    obtain ⟨⟨n, bs1⟩, h0, h⟩ := Option.bind_eq_some.mp h
    obtain ⟨⟨bytes, bs2⟩, h1, h⟩ := Option.bind_eq_some.mp h
    simp only [Option.some.injEq, Prod.mk.injEq] at h
    obtain ⟨hc, hr⟩ := h
    subst hc; subst hr
    obtain ⟨hn, _, he0, hok1⟩ := rdUsize_spec hok h0
    obtain ⟨he1, hlen⟩ := rdBytes_spec h1
    refine ⟨wrU32 n ++ bytes, ?_, ?_, (byteOk_append (he1 ▸ hok1)).2⟩
    · simp only [wrCircuitStates]
      have h31 : bytes.length < 2 ^ 31 := by omega
      simp [wrUsize, hlen, h31]
      omega
    · rw [he0, he1]; simp
  case subassembly =>
    unfold rdCircuitStates at h
    obtain ⟨⟨n, bs1⟩, h0, h⟩ := Option.bind_eq_some.mp h
    obtain ⟨⟨ons, bs2⟩, h1, h⟩ := Option.bind_eq_some.mp h
    simp only [Option.some.injEq, Prod.mk.injEq] at h
    obtain ⟨hc, hr⟩ := h
    subst hc; subst hr
    obtain ⟨hn, _, he0, hok1⟩ := rdUsize_spec hok h0
    obtain ⟨w1, hw1, he1, hok2, hlen⟩ := rdVec_spec (fun hok h => rdU32_spec_w hok h) hok1 h1
    rw [wrList_map_some] at hw1
    simp only [Option.some.injEq] at hw1
    subst hw1
    refine ⟨wrU32 n ++ (ons.map wrU32).flatten, ?_, ?_, hok2⟩
    · simp only [wrCircuitStates]
      have h31 : ons.length < 2 ^ 31 := by omega
      simp [wrUsize, hlen, h31]
      omega
    · rw [he0, he1]; simp

theorem rdComponentHead_spec {bs rest : List Nat}
    {address par type_id : Nat} {pos : Nat × Nat × Nat}
    {rot : Nat × Nat × Nat × Nat} {inputs outputs : List Nat} {cdl : Nat}
    (hok : ByteOk bs)
    (h : rdComponentHead bs =
      some ((address, par, type_id, pos, rot, inputs, outputs, cdl), rest)) :
    inputs.length < 2 ^ 31 ∧ outputs.length < 2 ^ 31 ∧ cdl < 2 ^ 32 ∧
    bs = wrU32 address ++ wrU32 par ++ wrU16 type_id ++
      wrU32 pos.1 ++ wrU32 pos.2.1 ++ wrU32 pos.2.2 ++ wrVersion rot ++
      wrU32 inputs.length ++ (inputs.map wrU32).flatten ++
      wrU32 outputs.length ++ (outputs.map wrU32).flatten ++ wrU32 cdl ++ rest ∧
    ByteOk rest := by
  unfold rdComponentHead at h
  obtain ⟨⟨a1, bs1⟩, h1, h⟩ := Option.bind_eq_some.mp h
  obtain ⟨⟨a2, bs2⟩, h2, h⟩ := Option.bind_eq_some.mp h
  obtain ⟨⟨a3, bs3⟩, h3, h⟩ := Option.bind_eq_some.mp h
  obtain ⟨⟨a4, bs4⟩, h4, h⟩ := Option.bind_eq_some.mp h
  obtain ⟨⟨a5, bs5⟩, h5, h⟩ := Option.bind_eq_some.mp h
  obtain ⟨⟨a6, bs6⟩, h6, h⟩ := Option.bind_eq_some.mp h
  obtain ⟨⟨a7, bs7⟩, h7, h⟩ := Option.bind_eq_some.mp h
  obtain ⟨⟨a8, bs8⟩, h8, h⟩ := Option.bind_eq_some.mp h
  obtain ⟨⟨a9, bs9⟩, h9, h⟩ := Option.bind_eq_some.mp h
  obtain ⟨⟨a10, bs10⟩, h10, h⟩ := Option.bind_eq_some.mp h
  obtain ⟨⟨a11, bs11⟩, h11, h⟩ := Option.bind_eq_some.mp h
  obtain ⟨⟨a12, bs12⟩, h12, h⟩ := Option.bind_eq_some.mp h
  simp only [Option.some.injEq, Prod.mk.injEq] at h
  obtain ⟨⟨e1, e2, e3, e4, e5, e6, e7, e8⟩, e9⟩ := h
  subst e1; subst e2; subst e3; subst e4; subst e5; subst e6; subst e7; subst e8; subst e9
  obtain ⟨_, f1, k1⟩ := rdU32_spec hok h1
  obtain ⟨_, f2, k2⟩ := rdU32_spec k1 h2
  obtain ⟨_, f3, k3⟩ := rdU16_spec k2 h3
  obtain ⟨_, f4, k4⟩ := rdU32_spec k3 h4
  obtain ⟨_, f5, k5⟩ := rdU32_spec k4 h5
  obtain ⟨_, f6, k6⟩ := rdU32_spec k5 h6
  obtain ⟨f7, k7⟩ := rdVersion_spec k6 h7
  obtain ⟨g8, _, f8, k8⟩ := rdUsize_spec k7 h8
  obtain ⟨w9, hw9, f9, k9, l9⟩ := rdVec_spec (fun hok h => rdU32_spec_w hok h) k8 h9
  obtain ⟨g10, _, f10, k10⟩ := rdUsize_spec k9 h10
  obtain ⟨w11, hw11, f11, k11, l11⟩ := rdVec_spec (fun hok h => rdU32_spec_w hok h) k10 h11
  obtain ⟨g12, f12, k12⟩ := rdU32_spec k11 h12
  rw [wrList_map_some] at hw9 hw11
  simp only [Option.some.injEq] at hw9 hw11
  subst hw9; subst hw11
  refine ⟨by omega, by omega, g12, ?_, k12⟩
  rw [f1, f2, f3, f4, f5, f6, f7, f8, f9, f10, f11, f12, l9, l11]
  simp

theorem wrComponent_eval_some {address par type_id : Nat} {pos : Nat × Nat × Nat}
    {rot : Nat × Nat × Nat × Nat} {inputs outputs data : List Nat}
    (hin : inputs.length < 2 ^ 31) (hout : outputs.length < 2 ^ 31)
    (hdl : data.length < 2 ^ 31) :
    wrComponent ⟨address, par, type_id, pos, rot, inputs, outputs, some data⟩ =
      some (wrU32 address ++ wrU32 par ++ wrU16 type_id ++
        wrU32 pos.1 ++ wrU32 pos.2.1 ++ wrU32 pos.2.2 ++ wrVersion rot ++
        wrU32 inputs.length ++ (inputs.map wrU32).flatten ++
        wrU32 outputs.length ++ (outputs.map wrU32).flatten ++
        (wrU32 data.length ++ data)) := by
  have e1 : wrUsize inputs.length = some (wrU32 inputs.length) := by
    simp [wrUsize]; omega
  have e2 : wrUsize outputs.length = some (wrU32 outputs.length) := by
    simp [wrUsize]; omega
  have e3 : wrUsize data.length = some (wrU32 data.length) := by
    simp [wrUsize]; omega
  simp [wrComponent, e1, e2, e3]

theorem wrComponent_eval_none {address par type_id : Nat} {pos : Nat × Nat × Nat}
    {rot : Nat × Nat × Nat × Nat} {inputs outputs : List Nat}
    (hin : inputs.length < 2 ^ 31) (hout : outputs.length < 2 ^ 31) :
    wrComponent ⟨address, par, type_id, pos, rot, inputs, outputs, none⟩ =
      some (wrU32 address ++ wrU32 par ++ wrU16 type_id ++
        wrU32 pos.1 ++ wrU32 pos.2.1 ++ wrU32 pos.2.2 ++ wrVersion rot ++
        wrU32 inputs.length ++ (inputs.map wrU32).flatten ++
        wrU32 outputs.length ++ (outputs.map wrU32).flatten ++
        wrU32 (2 ^ 32 - 1)) := by
  have e1 : wrUsize inputs.length = some (wrU32 inputs.length) := by
    simp [wrUsize]; omega
  have e2 : wrUsize outputs.length = some (wrU32 outputs.length) := by
    simp [wrUsize]; omega
  simp [wrComponent, e1, e2]

theorem rdComponentC_spec {bs rest : List Nat} {c : ComponentF}
    (hok : ByteOk bs) (h : rdComponentC bs = some (c, rest)) :
    ∃ w, wrComponent c = some w ∧ bs = w ++ rest ∧ ByteOk rest := by
  unfold rdComponentC at h
  obtain ⟨⟨⟨address, par, type_id, pos, rot, inputs, outputs, cdl⟩, bs1⟩, h0, h⟩ :=
    Option.bind_eq_some.mp h
  obtain ⟨hin, hout, hcdl, he0, hok1⟩ := rdComponentHead_spec hok h0
  obtain ⟨⟨cd, bs2⟩, h1, h⟩ := Option.bind_eq_some.mp h
  simp only [Option.some.injEq, Prod.mk.injEq] at h
  obtain ⟨hc, hr⟩ := h
  subst hc; subst hr
  unfold rdCustomDataC at h1
  split at h1
  · rename_i hlt
    obtain ⟨⟨data, bs2'⟩, hb, heq⟩ := Option.map_eq_some'.mp h1
    simp only [Prod.mk.injEq] at heq
    obtain ⟨q1, q2⟩ := heq
    subst q1; subst q2
    obtain ⟨hbe, hblen⟩ := rdBytes_spec hb
    refine ⟨_, wrComponent_eval_some hin hout (by omega), ?_, (byteOk_append (hbe ▸ hok1)).2⟩
    rw [he0, hbe, hblen]
    simp
  split at h1
  · rename_i hge heq1
    simp only [Option.some.injEq, Prod.mk.injEq] at h1
    obtain ⟨q1, q2⟩ := h1
    subst q1; subst q2; subst heq1
    refine ⟨_, wrComponent_eval_none hin hout, ?_, hok1⟩
    rw [he0]
  · exact absurd h1 (by simp)

/-- The strict component reader accepts a subset of the plain reader's
inputs and agrees with it there. -/
theorem rdComponentC_mono (bs : List Nat) (r : ComponentF × List Nat)
    (h : rdComponentC bs = some r) : rdComponent bs = some r := by
  unfold rdComponentC at h
  unfold rdComponent
  obtain ⟨⟨hd, bs1⟩, h0, h⟩ := Option.bind_eq_some.mp h
  obtain ⟨address, par, type_id, pos, rot, inputs, outputs, cdl⟩ := hd
  obtain ⟨⟨cd, bs2⟩, h1, h⟩ := Option.bind_eq_some.mp h
  refine Option.bind_eq_some.mpr
    ⟨((address, par, type_id, pos, rot, inputs, outputs, cdl), bs1), h0, ?_⟩
  refine Option.bind_eq_some.mpr ⟨(cd, bs2), ?_, h⟩
  unfold rdCustomDataC at h1
  unfold rdCustomData
  split at h1
  · rename_i hlt
    rw [if_pos hlt]
    exact h1
  · rename_i hge
    rw [if_neg hge]
    split at h1
    · exact h1
    · exact absurd h1 (by simp)

set_option maxHeartbeats 1000000 in
theorem rdFileBodyPre_spec {bs rest : List Nat} {pre : FilePre}
    (hok : ByteOk bs) (h : rdFileBodyPre bs = some (pre, rest)) :
    ∃ wm wc,
      wrList wrModInfo pre.mods = some wm ∧
      wrList wrComponentType pre.component_types = some wc ∧
      pre.ncomp < 2 ^ 31 ∧ pre.nwires < 2 ^ 31 ∧
      pre.mods.length < 2 ^ 31 ∧ pre.component_types.length < 2 ^ 31 ∧
      bs = wrVersion pre.game_version ++ wrU8 (saveTypeByte pre.save_type) ++
        wrU32 pre.ncomp ++ wrU32 pre.nwires ++
        wrU32 pre.mods.length ++ wm ++
        wrU32 pre.component_types.length ++ wc ++ rest ∧
      ByteOk rest := by
  unfold rdFileBodyPre at h
  obtain ⟨⟨gv, bs1⟩, h1, h⟩ := Option.bind_eq_some.mp h
  obtain ⟨⟨stb, bs2⟩, h2, h⟩ := Option.bind_eq_some.mp h
  obtain ⟨st, h3, h⟩ := Option.bind_eq_some.mp h
  obtain ⟨⟨ncomp, bs3⟩, h4, h⟩ := Option.bind_eq_some.mp h
  obtain ⟨⟨nwires, bs4⟩, h5, h⟩ := Option.bind_eq_some.mp h
  obtain ⟨⟨nmods, bs5⟩, h6, h⟩ := Option.bind_eq_some.mp h
  obtain ⟨⟨mods, bs6⟩, h7, h⟩ := Option.bind_eq_some.mp h
  obtain ⟨⟨nct, bs7⟩, h8, h⟩ := Option.bind_eq_some.mp h
  obtain ⟨⟨cts, bs8⟩, h9, h⟩ := Option.bind_eq_some.mp h
  simp only [Option.some.injEq, Prod.mk.injEq] at h
  obtain ⟨hp, hr⟩ := h
  subst hp; subst hr
  obtain ⟨f1, k1⟩ := rdVersion_spec hok h1
  obtain ⟨hstb, f2, k2⟩ := rdU8_spec k1 h2
  obtain ⟨g4, _, f4, k4⟩ := rdUsize_spec k2 h4
  obtain ⟨g5, _, f5, k5⟩ := rdUsize_spec k4 h5
  obtain ⟨g6, _, f6, k6⟩ := rdUsize_spec k5 h6
  obtain ⟨wm, hwm, f7, k7, l7⟩ := rdVec_spec (fun hok h => rdModInfo_spec hok h) k6 h7
  obtain ⟨g8, _, f8, k8⟩ := rdUsize_spec k7 h8
  obtain ⟨wc, hwc, f9, k9, l9⟩ := rdVec_spec (fun hok h => rdComponentType_spec hok h) k8 h9
  have hstbyte : saveTypeByte st = stb := by
    unfold saveTypeOfByte at h3
    split at h3
    · simp only [Option.some.injEq] at h3
      subst h3
      rfl
    · simp only [Option.some.injEq] at h3
      subst h3
      rfl
    · exact absurd h3 (by simp)
  refine ⟨wm, wc, hwm, hwc, g4, g5, (show mods.length < 2 ^ 31 by omega),
    (show cts.length < 2 ^ 31 by omega), ?_, k9⟩
  show bs = wrVersion gv ++ wrU8 (saveTypeByte st) ++ wrU32 ncomp ++ wrU32 nwires ++
    wrU32 mods.length ++ wm ++ wrU32 cts.length ++ wc ++ bs8
  rw [hstbyte, l7, l9, f1, f2, f4, f5, f6, f7, f8, f9]
  simp

theorem rdFileBody_mono {comp compC : List Nat → Option (ComponentF × List Nat)}
    (hm : ∀ bs r, compC bs = some r → comp bs = some r)
    (bs : List Nat) (r : BlotterFileF × List Nat)
    (h : rdFileBody compC bs = some r) : rdFileBody comp bs = some r := by
  unfold rdFileBody at h ⊢
  obtain ⟨⟨pre, bs1⟩, h0, h⟩ := Option.bind_eq_some.mp h
  obtain ⟨⟨comps, bs2⟩, h1, h⟩ := Option.bind_eq_some.mp h
  obtain ⟨⟨wires, bs3⟩, h2, h⟩ := Option.bind_eq_some.mp h
  obtain ⟨⟨cst, bs4⟩, h3, h⟩ := Option.bind_eq_some.mp h
  obtain ⟨⟨u, bs5⟩, h4, h⟩ := Option.bind_eq_some.mp h
  exact Option.bind_eq_some.mpr ⟨(pre, bs1), h0,
    Option.bind_eq_some.mpr ⟨(comps, bs2), rdVec_mono hm _ _ _ h1,
    Option.bind_eq_some.mpr ⟨(wires, bs3), h2,
    Option.bind_eq_some.mpr ⟨(cst, bs4), h3,
    Option.bind_eq_some.mpr ⟨(u, bs5), h4, h⟩⟩⟩⟩⟩

/-- Claim C1: for every well-formed file F — one accepted by the strict
reader (valid magic header and footer, version byte, save-type byte,
peg-type bytes, all sequence lengths, and "no custom data" encoded as
exactly -1), with all stream elements genuine bytes — decoding F and then
encoding the result reproduces F byte-for-byte.  The statement covers the
V5 and the V6 codec (version byte 5 resp. 6); their bodies are
byte-identical, and the claim holds for each independently. -/
theorem c1_codec_roundtrip (version : Nat) (bs : List Nat) (f : BlotterFileF)
    (hv : version = 5 ∨ version = 6) (hok : ByteOk bs)
    (h : readFileC version bs = some (f, [])) :
    readFile version bs = some (f, []) ∧ writeFile version f = some bs := by
  clear hv
  unfold readFileC at h
  obtain ⟨⟨u0, bs1⟩, h0, h⟩ := Option.bind_eq_some.mp h
  obtain ⟨⟨v, bs2⟩, h1, h⟩ := Option.bind_eq_some.mp h
  change (if v = version then rdFileBody rdComponentC bs2 else none) = some (f, []) at h
  split at h
  case isFalse => exact absurd h (by simp)
  rename_i hveq
  have hbody := h
  subst hveq
  obtain ⟨he0, hok1⟩ := rdMagic_spec hok h0
  obtain ⟨hvlt, he1, hok2⟩ := rdU8_spec hok1 h1
  constructor
  · unfold readFile
    refine Option.bind_eq_some.mpr ⟨(u0, bs1), h0,
      Option.bind_eq_some.mpr ⟨(v, bs2), h1, ?_⟩⟩
    show (if v = v then rdFileBody rdComponent bs2 else none) = some (f, [])
    rw [if_pos rfl]
    exact rdFileBody_mono (fun bs r hh => rdComponentC_mono bs r hh) bs2 (f, []) hbody
  · unfold rdFileBody at hbody
    obtain ⟨⟨pre, cb1⟩, b0, hb⟩ := Option.bind_eq_some.mp hbody
    obtain ⟨⟨comps, cb2⟩, b1, hb⟩ := Option.bind_eq_some.mp hb
    obtain ⟨⟨wires, cb3⟩, b2, hb⟩ := Option.bind_eq_some.mp hb
    obtain ⟨⟨cst, cb4⟩, b3, hb⟩ := Option.bind_eq_some.mp hb
    obtain ⟨⟨u2, cb5⟩, b4, hb⟩ := Option.bind_eq_some.mp hb
    simp only [Option.some.injEq, Prod.mk.injEq] at hb
    obtain ⟨hf, hr5⟩ := hb
    subst hf; subst hr5
    obtain ⟨wm, wc, hwm, hwc, gncomp, gnwires, gnmods, gnct, hpe, hok3⟩ :=
      rdFileBodyPre_spec hok2 b0
    obtain ⟨wcomp, hwcomp, hce, hok4, hclen⟩ :=
      rdVec_spec (fun hok h => rdComponentC_spec hok h) hok3 b1
    obtain ⟨wwires, hwwires, hwe, hok5, hwlen⟩ :=
      rdVec_spec (fun hok h => rdWire_spec_w hok h) hok4 b2
    rw [wrList_map_some] at hwwires
    simp only [Option.some.injEq] at hwwires
    subst hwwires
    obtain ⟨wcs, hwcs, hcse, hok6⟩ := rdCircuitStates_spec hok5 b3
    obtain ⟨hfe, -⟩ := rdMagic_spec hok6 b4
    have encomp : wrUsize comps.length = some (wrU32 pre.ncomp) := by
      rw [hclen]; simp [wrUsize]; omega
    have enwires : wrUsize wires.length = some (wrU32 pre.nwires) := by
      rw [hwlen]; simp [wrUsize]; omega
    have enmods : wrUsize pre.mods.length = some (wrU32 pre.mods.length) := by
      simp [wrUsize]; omega
    have enct : wrUsize pre.component_types.length =
        some (wrU32 pre.component_types.length) := by
      simp [wrUsize]; omega
    unfold writeFile
    simp only [hwm, hwc, hwcomp, hwcs, encomp, enwires, enmods, enct,
      Option.some_bind, Option.some.injEq]
    rw [he0, he1, hpe, hce, hwe, hcse, hfe]
    simp

def c1File : List Nat :=
  magicHeader ++ 6 :: wrVersion (0, 0, 0, 0) ++ 1 ::
    (wrU32 0 ++ wrU32 0 ++ wrU32 0 ++ wrU32 0 ++ wrU32 0) ++ magicFooter

def c1Decoded : BlotterFileF :=
  { game_version := (0, 0, 0, 0), save_type := SaveTypeF.world, mods := [],
    component_types := [], components := [], wires := [],
    circuit_states := CircuitStatesF.world [] }

/-- Witness for claim C1 at a concrete minimal v6 world file. -/
theorem c1_codec_roundtrip_witness :
    ((6 : Nat) = 5 ∨ (6 : Nat) = 6) ∧ ByteOk c1File ∧
    readFileC 6 c1File = some (c1Decoded, []) ∧
    (readFile 6 c1File = some (c1Decoded, []) ∧ writeFile 6 c1Decoded = some c1File) :=
  ⟨Or.inr rfl, by unfold ByteOk; decide, rfl,
    c1_codec_roundtrip 6 c1File c1Decoded (Or.inr rfl) (by unfold ByteOk; decide) rfl⟩

/-! ## V5 -> V6 migration (src/convert/v5v6.rs)

V5 positions are `f32` patterns, V6 positions are `i32` patterns; both are
carried as raw `Nat` patterns below 2^32 in `ComponentF`.  The migration
computes `(x * 1000.0_f32) as i32` per coordinate: an IEEE-754 binary32
multiplication (round to nearest, ties to even) followed by Rust's
saturating float-to-int cast (truncation toward zero, NaN to 0, saturation
to `i32::MIN` / `i32::MAX`).  The arithmetic is modelled bit-exactly on the
patterns. -/

def f32Exp (p : Nat) : Nat := p / 2 ^ 23 % 256

def f32Frac (p : Nat) : Nat := p % 2 ^ 23

def f32SignBit (p : Nat) : Nat := p / 2 ^ 31 % 2

/-- Round `num / den` to the nearest integer, ties to even (`den > 0`). -/
def roundNearEven (num den : Nat) : Nat :=
  let q := num / den
  let r := num % den
  if 2 * r < den then q
  else if 2 * r > den then q + 1
  else if q % 2 = 0 then q else q + 1

/-- The pattern of ±infinity. -/
def f32Inf (sb : Nat) : Nat := sb * 2 ^ 31 + 255 * 2 ^ 23

/-- Number of bits of `n` (0 for 0), by fuel-indexed structural recursion so
that it reduces inside the kernel. -/
def bitLenAux : Nat → Nat → Nat
  | 0, _ => 0
  | fuel + 1, n => if n = 0 then 0 else bitLenAux fuel (n / 2) + 1

def bitLen (n : Nat) : Nat := bitLenAux n n

/-- Encode the finite nonzero value `(-1)^sb * m * 2^E` (`m ≥ 1`) as a
binary32 pattern, rounding to nearest with ties to even, overflowing to
±infinity and underflowing through the subnormal range. -/
def encodeF32 (sb : Nat) (m : Nat) (E : Int) : Nat :=
  let k := bitLen m
  let eu : Int := (k : Int) - 1 + E
  if 128 ≤ eu then f32Inf sb
  else if eu ≤ -127 then
    let f :=
      if 0 ≤ E + 149 then m * 2 ^ (E + 149).toNat
      else roundNearEven m (2 ^ (-(E + 149)).toNat)
    sb * 2 ^ 31 + f
  else
    let sig := if 24 ≤ k then roundNearEven m (2 ^ (k - 24)) else m * 2 ^ (24 - k)
    if sig = 2 ^ 24 then
      if eu + 1 = 128 then f32Inf sb
      else sb * 2 ^ 31 + (eu + 1 + 127).toNat * 2 ^ 23 + 0
    else sb * 2 ^ 31 + (eu + 127).toNat * 2 ^ 23 + (sig - 2 ^ 23)

/-- IEEE-754 binary32 multiplication of the value with pattern `p` by the
(exactly representable) constant `1000.0`. -/
def f32Mul1000 (p : Nat) : Nat :=
  let e := f32Exp p
  let fr := f32Frac p
  let sb := f32SignBit p
  if e = 255 then
    if fr = 0 then p else 0x7FC00000
  else
    let m := if e = 0 then fr else 2 ^ 23 + fr
    if m = 0 then p
    else encodeF32 sb (1000 * m) ((if e = 0 then 1 else (e : Int)) - 150)

/-- Rust's saturating `f32 as i32` cast on a pattern: NaN to 0, truncation
toward zero, saturation to `i32::MIN` / `i32::MAX` (infinities saturate). -/
def f32ToI32Sat (p : Nat) : Int :=
  let e := f32Exp p
  let fr := f32Frac p
  if e = 255 ∧ fr ≠ 0 then 0
  else
    let m := if e = 0 then fr else 2 ^ 23 + fr
    let E : Int := (if e = 0 then 1 else (e : Int)) - 150
    let t : Nat := if 0 ≤ E then m * 2 ^ E.toNat else m / 2 ^ (-E).toNat
    if f32SignBit p = 1 then
      if 2 ^ 31 < (t : Int) then -(2 ^ 31) else -(t : Int)
    else
      if 2 ^ 31 ≤ (t : Int) then 2 ^ 31 - 1 else (t : Int)

/-- Two's-complement `i32` pattern of an integer. -/
def i32pat (z : Int) : Nat := (z % 2 ^ 32).toNat

/-- `(x * 1000.0_f32) as i32`, pattern to pattern
(`floating_to_fixed_position`, per coordinate). -/
def fixedOfFloat (p : Nat) : Nat := i32pat (f32ToI32Sat (f32Mul1000 p))

/-- `From<v5::Component> for v6::Component`. -/
def componentV5toV6 (c : ComponentF) : ComponentF :=
  { address := c.address
    parent := c.parent
    type_id := c.type_id
    position := (fixedOfFloat c.position.1, fixedOfFloat c.position.2.1,
      fixedOfFloat c.position.2.2)
    rotation := c.rotation
    inputs := c.inputs
    outputs := c.outputs
    custom_data := c.custom_data }

/-- `From<v5::BlotterFile> for v6::BlotterFile`. -/
def migrateV5V6 (f : BlotterFileF) : BlotterFileF :=
  { game_version := f.game_version
    save_type := f.save_type
    mods := f.mods
    component_types := f.component_types
    components := f.components.map componentV5toV6
    wires := f.wires
    circuit_states := f.circuit_states }

/-- Modelled from the spec: "maps V5→V6 by converting each component
position coordinate-wise with IEEE-754 multiply by 1000 then
truncation-toward-zero saturating cast, and leaving every other field
byte-identical". -/
def specMigrationV5V6 (f : BlotterFileF) : BlotterFileF :=
  { f with components := f.components.map fun c =>
      { c with position := (fixedOfFloat c.position.1, fixedOfFloat c.position.2.1,
          fixedOfFloat c.position.2.2) } }

/-- Claim C6: the V5-to-V6 migration maps each component position
coordinate through the IEEE-754 multiply-by-1000 and saturating
truncation-toward-zero cast, and carries every other field of the file
(and of each component) over unchanged: it coincides with the migration
the spec describes, and component `k` of the output is component `k` of
the input with only its position replaced. -/
theorem c6_migration_v5v6 (f : BlotterFileF) :
    migrateV5V6 f = specMigrationV5V6 f ∧
    (migrateV5V6 f).game_version = f.game_version ∧
    (migrateV5V6 f).save_type = f.save_type ∧
    (migrateV5V6 f).mods = f.mods ∧
    (migrateV5V6 f).component_types = f.component_types ∧
    (migrateV5V6 f).wires = f.wires ∧
    (migrateV5V6 f).circuit_states = f.circuit_states ∧
    (migrateV5V6 f).components.length = f.components.length ∧
    ∀ (k : Nat) (c : ComponentF), f.components[k]? = some c →
      (migrateV5V6 f).components[k]? = some
        { address := c.address, parent := c.parent, type_id := c.type_id,
          position := (fixedOfFloat c.position.1, fixedOfFloat c.position.2.1,
            fixedOfFloat c.position.2.2),
          rotation := c.rotation, inputs := c.inputs, outputs := c.outputs,
          custom_data := c.custom_data } := by
  refine ⟨?_, rfl, rfl, rfl, rfl, rfl, rfl, by simp [migrateV5V6], ?_⟩
  · cases f
    simp [migrateV5V6, specMigrationV5V6, componentV5toV6]
  · intro k c hk
    simp [migrateV5V6, List.getElem?_map, hk, componentV5toV6]

/-- The C6 witness input: one component whose position coordinates are the
patterns of `1.5`, NaN, and `+∞`. -/
def c6File : BlotterFileF :=
  { game_version := (0, 91, 0, 510), save_type := SaveTypeF.world, mods := [],
    component_types := [],
    components := [{ address := 1, parent := 0, type_id := 3,
                     position := (0x3FC00000, 0x7FC00000, 0x7F800000),
                     rotation := (0, 0, 0, 0x3F800000), inputs := [0], outputs := [],
                     custom_data := none }],
    wires := [], circuit_states := CircuitStatesF.world [0] }

/-- Witness for claim C6: the migrated positions are `1500` (from `1.5`),
`0` (from NaN), and `i32::MAX` (from `+∞`). -/
theorem c6_migration_v5v6_witness :
    (migrateV5V6 c6File).components[0]? =
      some { address := 1, parent := 0, type_id := 3,
             position := (1500, 0, 2147483647),
             rotation := (0, 0, 0, 0x3F800000), inputs := [0], outputs := [],
             custom_data := none } := by
  have h := (c6_migration_v5v6 c6File).2.2.2.2.2.2.2.2 0
    { address := 1, parent := 0, type_id := 3,
      position := (0x3FC00000, 0x7FC00000, 0x7F800000),
      rotation := (0, 0, 0, 0x3F800000), inputs := [0], outputs := [],
      custom_data := none } rfl
  rw [h]
  decide

end Blotter
